import Mathlib

/-!
# Banking system (`OSproject.cpp`): accounts, ledger and dispatcher

A shallow embedding of the classes `Account`, `Bank` and `Transaction` of
`src/OSproject.cpp`, followed by the properties proved about them.

Conventions of the embedding

* `double` is embedded as IEEE 754 binary64 with the default rounding (to
  nearest, ties to even): the type `Double` below, with signed zeros,
  subnormal numbers, the two infinities and one NaN.  `+`, `-` and `>=` are
  the binary64 operations.
* `int` identifiers are embedded as `Int`; the program performs no arithmetic
  on them.
* An `Account *` is a handle: the index of the account in the list of heap
  allocated accounts.  `new Account` allocates the next index; nothing is
  freed before `~Bank`.
* A `lock_guard` scope is an `acquire` event at its opening, a `release`
  event at its closing; the code between the two is one atomic step.
-/

namespace Banking

/-! ## The type `double`

The functions that mention the powers `2^1074` and `2^2098` are irreducible:
proofs use them through the lemmas of the section on binary64 arithmetic and
never unfold the powers. -/

/-- A binary64 value.  `fin neg mag` is the finite number
`(-1)^neg * mag * 2^(-1074)`: every finite binary64 number is a whole multiple
of the least subnormal `2^(-1074)`, and `mag` is that multiple.  The
magnitudes of binary64 numbers are the `mag` below `2^2098` that have at most
53 significant bits (`isBinary64`). -/
inductive Double where
  | nan
  | inf (neg : Bool)
  | fin (neg : Bool) (mag : Nat)
  deriving DecidableEq

namespace Double

/-- Rounds a magnitude to 53 significant bits, to nearest, ties to even.
Magnitudes below `2^53` (the subnormal numbers and the first binade) are kept
as they are. -/
@[irreducible] def roundMag (n : Nat) : Nat :=
  let k := Nat.log2 n - 52
  let q := n / 2 ^ k
  let r := n % 2 ^ k
  if 2 * r < 2 ^ k then q * 2 ^ k
  else if 2 * r = 2 ^ k ∧ q % 2 = 0 then q * 2 ^ k
  else (q + 1) * 2 ^ k

/-- The binary64 value nearest to `(-1)^neg * n * 2^(-1074)`; a rounded
magnitude beyond the largest finite one, `(2^53 - 1) * 2^2045`, overflows to
the infinity of that sign. -/
@[irreducible] def ofMag (neg : Bool) (n : Nat) : Double :=
  if roundMag n < 2 ^ 2098 then fin neg (roundMag n) else inf neg

/-- The binary64 value nearest to an integer (the conversion of a literal such
as `100.0`). -/
@[irreducible] def ofInt (z : Int) : Double := ofMag (decide (z < 0)) (z.natAbs * 2 ^ 1074)

instance (n : Nat) : OfNat Double n := ⟨ofInt n⟩

/-- Whether the value is a binary64 number: its magnitude is below `2^2098`
and has at most 53 significant bits. -/
@[irreducible] def isBinary64 : Double → Bool
  | fin _ m => decide (m < 2 ^ 2098) && decide (roundMag m = m)
  | _ => true

/-- Unary minus. -/
def neg : Double → Double
  | nan => nan
  | inf s => inf (!s)
  | fin s m => fin (!s) m

/-- The sum `x + y`: the exact sum, rounded.  An exact sum `0` of two numbers
of opposite signs is `+0`; infinities of opposite signs give NaN. -/
def add : Double → Double → Double
  | nan, _ => nan
  | _, nan => nan
  | inf s, inf t => if s = t then inf s else nan
  | inf s, fin _ _ => inf s
  | fin _ _, inf t => inf t
  | fin s m, fin t n =>
    if s = t then ofMag s (m + n)
    else if n < m then ofMag s (m - n)
    else if m < n then ofMag t (n - m)
    else fin false 0

/-- The difference `x - y`, which is `x + (-y)`. -/
def sub (x y : Double) : Double := add x (neg y)

instance : Add Double := ⟨add⟩

instance : Sub Double := ⟨sub⟩

instance : Neg Double := ⟨neg⟩

/-- The signed multiple of `2^(-1074)` a finite value stands for. -/
def toInt (neg : Bool) (mag : Nat) : Int := if neg then - (mag : Int) else (mag : Int)

/-- The comparison `x >= y`; `false` when an operand is NaN, and `-0 >= +0`. -/
def ge : Double → Double → Bool
  | nan, _ => false
  | _, nan => false
  | inf s, inf t => !s || t
  | inf s, fin _ _ => !s
  | fin _ _, inf t => t
  | fin s m, fin t n => decide (toInt t n ≤ toInt s m)

/-- The comparison `x < y`; `false` when an operand is NaN. -/
def lt : Double → Double → Bool
  | nan, _ => false
  | _, nan => false
  | inf s, inf t => s && !t
  | inf s, fin _ _ => s
  | fin _ _, inf t => !t
  | fin s m, fin t n => decide (toInt s m < toInt t n)

/-- The exact value of a finite number, as a rational. -/
@[irreducible] def exact : Double → Option ℚ
  | fin s m => some (mkRat (toInt s m) (2 ^ 1074))
  | _ => none

end Double

/-! ## class Account -/

/-- The data members of `class Account` (the mutex `acc_mtx` carries no data). -/
structure Account where
  id : Int
  balance : Double
  deriving DecidableEq

namespace Account

/-- `int getId() const`. -/
def getId (self : Account) : Int := self.id

/-- `double getBalance() const`: the read made under `acc_mtx`. -/
def getBalance (self : Account) : Double := self.balance

/-- `void deposit(double amount)`: `balance += amount` under `acc_mtx`. -/
def deposit (self : Account) (amount : Double) : Account :=
  { self with balance := self.balance + amount }

/-- `bool withdraw(double amount)`: the test and the subtraction made under
`acc_mtx`; the result is the returned flag and the account afterwards. -/
def withdraw (self : Account) (amount : Double) : Bool × Account :=
  if Double.ge self.balance amount then
    (true, { self with balance := self.balance - amount })
  else
    (false, self)

/-- A sequence of `deposit` calls on one account, one after another. -/
def depositAll (self : Account) (amounts : List Double) : Account :=
  amounts.foldl deposit self

/-- The same `withdraw(amount)` call issued `n` times in a row; the result is
the list of returned flags and the account afterwards. -/
def withdrawRepeat (self : Account) (amount : Double) : Nat → List Bool × Account
  | 0 => ([], self)
  | n + 1 =>
    let r := self.withdraw amount
    let rest := withdrawRepeat r.2 amount n
    (r.1 :: rest.1, rest.2)

/-- A sequence of `withdraw` calls on one account, one after another; the
result is the list of returned flags and the account afterwards. -/
def withdrawAll (self : Account) : List Double → List Bool × Account
  | [] => ([], self)
  | amount :: rest =>
    let r := self.withdraw amount
    let t := withdrawAll r.2 rest
    (r.1 :: t.1, t.2)

/-- The exact sum of the amounts of the calls that returned `true`, for whole
amounts: `flags` are the returned flags, `amounts` the amounts, in call order. -/
def paid : List Bool → List Int → Int
  | true :: flags, amount :: amounts => amount + paid flags amounts
  | false :: flags, _ :: amounts => paid flags amounts
  | _, _ => 0

end Account

/-! ## class Bank -/

/-- The state of a `Bank`: the accounts allocated so far by `new Account`
(an `Account *` is an index into `heap`) and the `unordered_map<int, Account *>`
member `accounts`, kept as a list of key and handle pairs. -/
structure Bank where
  heap : List Account
  accounts : List (Int × Nat)
  deriving DecidableEq

namespace Bank

/-- A freshly constructed `Bank`: nothing allocated, an empty map. -/
def empty : Bank := { heap := [], accounts := [] }

/-- The lookup `accounts.find(key)`: the mapped handle, or `none` for
`accounts.end()`. -/
def find : List (Int × Nat) → Int → Option Nat
  | [], _ => none
  | (k, v) :: rest, key => if k = key then some v else find rest key

/-- The assignment `accounts[key] = value`: the entry of `key` is inserted, or
replaced when the key is already present. -/
def assign (m : List (Int × Nat)) (key : Int) (value : Nat) : List (Int × Nat) :=
  (key, value) :: m.filter (fun p => p.1 ≠ key)

/-- The handles stored in the map under `key`. -/
def entries (self : Bank) (key : Int) : List Nat :=
  (self.accounts.filter (fun p => p.1 = key)).map Prod.snd

/-- `Account *createAccount(int customer_id, double initial_balance)`: the
critical section under `bank_mtx`; the result is the returned handle and the
bank afterwards. -/
def createAccount (self : Bank) (customer_id : Int) (initial_balance : Double) :
    Nat × Bank :=
  let account := self.heap.length
  (account,
    { heap := self.heap ++ [Account.mk customer_id initial_balance],
      accounts := assign self.accounts customer_id account })

/-- `Account *getAccount(int account_id)`: the critical section under
`bank_mtx`; `none` is the `NULL` result. -/
def getAccount (self : Bank) (account_id : Int) : Option Nat :=
  match find self.accounts account_id with
  | some account => some account
  | none => none

/-- The account a handle points to, when it points to one. -/
def deref (self : Bank) (account : Nat) : Option Account :=
  self.heap[account]?

/-- The call `account->getBalance()`.  A handle that addresses no account is
never returned by `getAccount` on a ledger built by `createAccount`; the
embedding reads `0` through such a handle. -/
def getBalance (self : Bank) (account : Nat) : Double :=
  match self.heap[account]? with
  | some a => a.getBalance
  | none => 0

/-- The call `account->deposit(amount)`; a handle that addresses no account
leaves the bank as it is. -/
def deposit (self : Bank) (account : Nat) (amount : Double) : Bank :=
  match self.heap[account]? with
  | some a => { self with heap := self.heap.set account (a.deposit amount) }
  | none => self

/-- The call `account->withdraw(amount)`; a handle that addresses no account
leaves the bank as it is and yields `false`. -/
def withdraw (self : Bank) (account : Nat) (amount : Double) : Bool × Bank :=
  match self.heap[account]? with
  | some a =>
    ((a.withdraw amount).1, { self with heap := self.heap.set account (a.withdraw amount).2 })
  | none => (false, self)

end Bank

/-! ## Locks, console output and the event trace -/

/-- The mutexes of the program: one `acc_mtx` per account (named by the
handle of the account), the `bank_mtx` of the bank, and `print_mtx`. -/
inductive Lock where
  | acc_mtx (account : Nat)
  | bank_mtx
  | print_mtx
  deriving DecidableEq

/-- The lines a task writes to `cout`. -/
inductive Msg where
  /-- The line `::thread <id> ::`. -/
  | thread
  /-- The line `Account created for customer <id> with initial balance <b>`. -/
  | accountCreated (customer_id : Int) (initial_balance : Double)
  /-- The line `Deposited <amount> to account <id>`. -/
  | deposited (amount : Double) (account_id : Int)
  /-- The line `Withdrew <amount> from account <id>`. -/
  | withdrew (amount : Double) (account_id : Int)
  /-- The line `Insufficient balance in account <id>`. -/
  | insufficient (account_id : Int)
  /-- The line `Account <id> not found`. -/
  | notFound (account_id : Int)
  /-- The line `Balance for account <id> is <value>`. -/
  | balance (account_id : Int) (value : Double)
  deriving DecidableEq

/-- What a running operation does that other threads can observe. -/
inductive Event where
  | acquire (l : Lock)
  | release (l : Lock)
  | print (m : Msg)
  deriving DecidableEq

/-- The shared state the tasks work on: the bank and the trace of events so
far, oldest first. -/
structure Sys where
  bank : Bank
  trace : List Event
  deriving DecidableEq

namespace Sys

/-- The state at program start. -/
def init : Sys := { bank := Bank.empty, trace := [] }

/-- Appends one event to the trace. -/
def emit (s : Sys) (e : Event) : Sys := { s with trace := s.trace ++ [e] }

/-- A block `{ lock_guard<mutex> lock(print_mtx); cout << line; }`. -/
def printLocked (s : Sys) (m : Msg) : Sys :=
  ((s.emit (.acquire .print_mtx)).emit (.print m)).emit (.release .print_mtx)

/-- `Bank::createAccount` with its `lock_guard` on `bank_mtx`. -/
def createAccount (s : Sys) (customer_id : Int) (initial_balance : Double) : Nat × Sys :=
  let s1 := s.emit (.acquire .bank_mtx)
  let r := s1.bank.createAccount customer_id initial_balance
  (r.1, ({ s1 with bank := r.2 }).emit (.release .bank_mtx))

/-- `Bank::getAccount` with its `lock_guard` on `bank_mtx`. -/
def getAccount (s : Sys) (account_id : Int) : Option Nat × Sys :=
  let s1 := s.emit (.acquire .bank_mtx)
  (s1.bank.getAccount account_id, s1.emit (.release .bank_mtx))

/-- `Account::getBalance` through a handle, with its `lock_guard` on `acc_mtx`. -/
def getBalance (s : Sys) (account : Nat) : Double × Sys :=
  let s1 := s.emit (.acquire (.acc_mtx account))
  (s1.bank.getBalance account, s1.emit (.release (.acc_mtx account)))

/-- `Account::deposit` through a handle, with its `lock_guard` on `acc_mtx`. -/
def deposit (s : Sys) (account : Nat) (amount : Double) : Sys :=
  let s1 := s.emit (.acquire (.acc_mtx account))
  ({ s1 with bank := s1.bank.deposit account amount }).emit (.release (.acc_mtx account))

/-- `Account::withdraw` through a handle, with its `lock_guard` on `acc_mtx`. -/
def withdraw (s : Sys) (account : Nat) (amount : Double) : Bool × Sys :=
  let s1 := s.emit (.acquire (.acc_mtx account))
  let r := s1.bank.withdraw account amount
  (r.1, ({ s1 with bank := r.2 }).emit (.release (.acc_mtx account)))

end Sys

/-! ## class Transaction: the bodies of the tasks -/

/-- The operation requests of the dispatcher, one per entry point of
`class Transaction`. -/
inductive Request where
  | createAccount (customer_id : Int) (initial_balance : Double)
  | deposit (account_id : Int) (amount : Double)
  | withdraw (account_id : Int) (amount : Double)
  | checkBalance (account_id : Int)
  deriving DecidableEq

namespace Transaction

/-- The body of the thread started by `Transaction::createAccount`. -/
def createAccountTask (customer_id : Int) (initial_balance : Double) (s : Sys) : Sys :=
  let s1 := s.printLocked .thread
  let s2 := (s1.createAccount customer_id initial_balance).2
  s2.printLocked (.accountCreated customer_id initial_balance)

/-- The body of the thread started by `Transaction::deposit`. -/
def depositTask (account_id : Int) (amount : Double) (s : Sys) : Sys :=
  let s1 := s.printLocked .thread
  let r := s1.getAccount account_id
  match r.1 with
  | some account =>
    let s2 := r.2.deposit account amount
    s2.printLocked (.deposited amount account_id)
  | none => r.2.printLocked (.notFound account_id)

/-- The body of the thread started by `Transaction::withdraw`. -/
def withdrawTask (account_id : Int) (amount : Double) (s : Sys) : Sys :=
  let s1 := s.printLocked .thread
  let r := s1.getAccount account_id
  match r.1 with
  | some account =>
    let w := r.2.withdraw account amount
    if w.1 then
      w.2.printLocked (.withdrew amount account_id)
    else
      w.2.printLocked (.insufficient account_id)
  | none => r.2.printLocked (.notFound account_id)

/-- The body of the thread started by `Transaction::checkBalance`.  On the
found branch `account->getBalance()` is an operand of the `cout` statement,
so it is evaluated inside the `lock_guard` scope of `print_mtx`. -/
def checkBalanceTask (account_id : Int) (s : Sys) : Sys :=
  let s1 := s.printLocked .thread
  let r := s1.getAccount account_id
  match r.1 with
  | some account =>
    let s2 := r.2.emit (.acquire .print_mtx)
    let b := s2.getBalance account
    let s3 := b.2.emit (.print (.balance account_id b.1))
    s3.emit (.release .print_mtx)
  | none => r.2.printLocked (.notFound account_id)

/-- The body of the task of a request. -/
def runTask : Request → Sys → Sys
  | .createAccount customer_id initial_balance => createAccountTask customer_id initial_balance
  | .deposit account_id amount => depositTask account_id amount
  | .withdraw account_id amount => withdrawTask account_id amount
  | .checkBalance account_id => checkBalanceTask account_id

end Transaction

/-! ## Sequences of operations on one system -/

/-- One operation on the shared state: a call of a public member function of
`Bank`, a call of a member function of `Account` through a handle, or one
dispatcher task run from start to end. -/
inductive Op where
  | createAccount (customer_id : Int) (initial_balance : Double)
  | getAccount (account_id : Int)
  | getBalance (account : Nat)
  | deposit (account : Nat) (amount : Double)
  | withdraw (account : Nat) (amount : Double)
  | task (r : Request)
  deriving DecidableEq

namespace Op

/-- Whether the operation calls `Bank::createAccount` with the identifier `key`. -/
def creates (key : Int) : Op → Bool
  | .createAccount customer_id _ => decide (customer_id = key)
  | .task (.createAccount customer_id _) => decide (customer_id = key)
  | _ => false

/-- Whether the operation is a `checkBalance` task. -/
def isCheckBalance : Op → Bool
  | .task (.checkBalance _) => true
  | _ => false

end Op

namespace Sys

/-- The state after one operation. -/
def step (s : Sys) : Op → Sys
  | .createAccount customer_id initial_balance => (s.createAccount customer_id initial_balance).2
  | .getAccount account_id => (s.getAccount account_id).2
  | .getBalance account => (s.getBalance account).2
  | .deposit account amount => s.deposit account amount
  | .withdraw account amount => (s.withdraw account amount).2
  | .task r => Transaction.runTask r s

/-- The state after a sequence of operations, each one atomic. -/
def run (s : Sys) (ops : List Op) : Sys := ops.foldl step s

end Sys

/-- The events one operation produces when started on the bank `b`. -/
def Op.events (op : Op) (b : Bank) : List Event :=
  (Sys.step { bank := b, trace := [] } op).trace

/-! ## Lock nesting -/

/-- The pairs `(h, l)` such that the lock `l` is acquired while the lock `h`
is held, in a sequence of events started with the locks `held`. -/
def nestings : List Lock → List Event → List (Lock × Lock)
  | _, [] => []
  | held, .acquire l :: es => held.map (fun h => (h, l)) ++ nestings (l :: held) es
  | held, .release l :: es => nestings (held.erase l) es
  | held, .print _ :: es => nestings held es

/-- The locks still held at the end of a sequence of events started with the
locks `held`. -/
def heldAfter : List Lock → List Event → List Lock
  | held, [] => held
  | held, .acquire l :: es => heldAfter (l :: held) es
  | held, .release l :: es => heldAfter (held.erase l) es
  | held, .print _ :: es => heldAfter held es

/-- The largest number of locks held at one time in a sequence of events
started with the locks `held`. -/
def maxHeld : List Lock → List Event → Nat
  | held, [] => held.length
  | held, .acquire l :: es => max held.length (maxHeld (l :: held) es)
  | held, .release l :: es => max held.length (maxHeld (held.erase l) es)
  | held, .print _ :: es => max held.length (maxHeld held es)

/-- The messages printed in a sequence of events, oldest first. -/
def printed : List Event → List Msg
  | [] => []
  | .print m :: es => m :: printed es
  | _ :: es => printed es

/-! ## class Transaction: the thread collection and the destructor -/

/-- One element of `vector<thread> threads`: the request its body serves,
whether the body has run to its end, and the value of `joinable()`. -/
structure Thread where
  request : Request
  finished : Bool
  joinable : Bool
  deriving DecidableEq

/-- The state of a `Transaction` object: the member `threads`, the shared
state behind the references `bank` and `print_mtx`, and the position of the
destructor (`none` while the object is alive, `some i` once `~Transaction`
has started and its loop stands before the element `i`). -/
structure Transaction where
  threads : List Thread
  sys : Sys
  joining : Option Nat
  deriving DecidableEq

namespace Transaction

/-- The constructor `Transaction(Bank &bank, mutex &print_mtx)`. -/
def new (sys : Sys) : Transaction := { threads := [], sys := sys, joining := none }

/-- The statement `threads.push_back(thread(body))`: a thread is started on
the body and recorded at the end of the collection. -/
def spawn (self : Transaction) (r : Request) : Transaction :=
  { self with threads := self.threads ++ [Thread.mk r false true] }

/-- `void createAccount(int customer_id, double initial_balance)`. -/
def createAccount (self : Transaction) (customer_id : Int) (initial_balance : Double) :
    Transaction :=
  self.spawn (.createAccount customer_id initial_balance)

/-- `void deposit(int account_id, double amount)`. -/
def deposit (self : Transaction) (account_id : Int) (amount : Double) : Transaction :=
  self.spawn (.deposit account_id amount)

/-- `void withdraw(int account_id, double amount)`. -/
def withdraw (self : Transaction) (account_id : Int) (amount : Double) : Transaction :=
  self.spawn (.withdraw account_id amount)

/-- `void checkBalance(int account_id)`. -/
def checkBalance (self : Transaction) (account_id : Int) : Transaction :=
  self.spawn (.checkBalance account_id)

/-- The entry point that serves a request. -/
def submit (self : Transaction) : Request → Transaction
  | .createAccount customer_id initial_balance => self.createAccount customer_id initial_balance
  | .deposit account_id amount => self.deposit account_id amount
  | .withdraw account_id amount => self.withdraw account_id amount
  | .checkBalance account_id => self.checkBalance account_id

/-- What can happen next to a dispatcher. -/
inductive Action where
  /-- The caller invokes the entry point of a request. -/
  | submit (r : Request)
  /-- The scheduler lets the thread at position `i` run its body to the end. -/
  | run (i : Nat)
  /-- The destructor `~Transaction` is entered. -/
  | destroy
  /-- One iteration of the loop of the destructor. -/
  | joinNext
  deriving DecidableEq

/-- One step of the dispatcher; `none` when the action cannot happen in this
state.  An entry point is called on a live object only; a thread runs its body
once; `t.join()` returns only when the thread has finished, so the loop of the
destructor cannot pass a joinable thread that is still running. -/
def step (d : Transaction) : Action → Option Transaction
  | .submit r => if d.joining = none then some (d.submit r) else none
  | .run i =>
    match d.threads[i]? with
    | some t =>
      if t.finished then none
      else some { d with sys := runTask t.request d.sys,
                         threads := d.threads.set i { t with finished := true } }
    | none => none
  | .destroy => if d.joining = none then some { d with joining := some 0 } else none
  | .joinNext =>
    match d.joining with
    | some i =>
      match d.threads[i]? with
      | some t =>
        if t.joinable then
          if t.finished then
            some { d with threads := d.threads.set i { t with joinable := false },
                          joining := some (i + 1) }
          else none
        else some { d with joining := some (i + 1) }
      | none => none
    | none => none

/-- The state after a sequence of actions, when each of them can happen. -/
def exec (d : Transaction) : List Action → Option Transaction
  | [] => some d
  | a :: rest =>
    match d.step a with
    | some d1 => exec d1 rest
    | none => none

/-- Whether `~Transaction` has returned: its loop has passed every element. -/
def returned (d : Transaction) : Bool :=
  decide (d.joining = some d.threads.length)

/-- The requests submitted in a sequence of actions, oldest first. -/
def submitted : List Action → List Request
  | [] => []
  | .submit r :: rest => r :: submitted rest
  | _ :: rest => submitted rest

/-- A schedule that lets the destructor return from the loop position `i`:
each remaining thread that has not finished runs, then is joined. -/
def drain (i : Nat) : List Thread → List Action
  | [] => []
  | t :: rest =>
    (if t.finished then [] else [Action.run i]) ++ Action.joinNext :: drain (i + 1) rest

/-- A schedule that completes the shutdown of a dispatcher from its current
state. -/
def shutdown (d : Transaction) : List Action :=
  match d.joining with
  | none => Action.destroy :: drain 0 d.threads
  | some i => drain i (d.threads.drop i)

/-- The number of threads of a collection whose body has run to its end. -/
def finishedCount : List Thread → Nat
  | [] => 0
  | t :: rest => (if t.finished then 1 else 0) + finishedCount rest

/-- The number of `::thread` lines in a trace; each task body prints one, as
its first statement. -/
def banners (es : List Event) : Nat := (printed es).count Msg.thread

/-- The invariant of the thread collection.  While the object is alive every
recorded thread is joinable.  Once the destructor stands before the element `i`,
the elements before `i` have finished and have been joined, and the elements
from `i` on are still joinable. -/
def Inv (d : Transaction) : Prop :=
  match d.joining with
  | none => ∀ (k : Nat) (t : Thread), d.threads[k]? = some t → t.joinable = true
  | some i =>
    i ≤ d.threads.length ∧
    ∀ (k : Nat) (t : Thread), d.threads[k]? = some t →
      (k < i → t.finished = true ∧ t.joinable = false) ∧ (i ≤ k → t.joinable = true)

end Transaction

end Banking

namespace Banking

/-! ## Properties of binary64 arithmetic -/

theorem Double.add_def (x y : Double) : x + y = Double.add x y := rfl

theorem Double.sub_def (x y : Double) : x - y = Double.add x (Double.neg y) := rfl

theorem Double.ofNat_def (n : Nat) : (OfNat.ofNat n : Double) = Double.ofInt (n : Int) := rfl

theorem Double.roundMag_mul_two_pow (a j : Nat) (h : a ≤ 2 ^ 53) :
    Double.roundMag (a * 2 ^ j) = a * 2 ^ j := by
  by_cases ha : a = 0
  · subst ha
    simp [Double.roundMag, Nat.log2_zero]
  · have hpos : 0 < 2 ^ j := Nat.pow_pos (by decide)
    have hn : a * 2 ^ j ≠ 0 := Nat.mul_ne_zero ha (Nat.ne_of_gt hpos)
    have hdvd : 2 ^ (Nat.log2 (a * 2 ^ j) - 52) ∣ a * 2 ^ j := by
      by_cases hlt : a < 2 ^ 53
      · have h1 : a * 2 ^ j < 2 ^ (53 + j) := by
          rw [Nat.pow_add]
          exact Nat.mul_lt_mul_of_pos_right hlt hpos
        have h2 : Nat.log2 (a * 2 ^ j) < 53 + j := (Nat.log2_lt hn).mpr h1
        exact Dvd.dvd.mul_left (Nat.pow_dvd_pow 2 (by omega)) a
      · have ha2 : a = 2 ^ 53 := Nat.le_antisymm h (Nat.le_of_not_lt hlt)
        subst ha2
        rw [← Nat.pow_add, Nat.log2_two_pow]
        exact Nat.pow_dvd_pow 2 (by omega)
    have hk : 0 < 2 ^ (Nat.log2 (a * 2 ^ j) - 52) := Nat.pow_pos (by decide)
    simp only [Double.roundMag, Nat.mod_eq_zero_of_dvd hdvd, Nat.mul_zero, hk, if_true]
    exact Nat.div_mul_cancel hdvd

theorem Double.roundMag_tie (q j : Nat) (h1 : 2 ^ 52 ≤ q) (h2 : q < 2 ^ 53) :
    Double.roundMag ((2 * q + 1) * 2 ^ j) = (q + q % 2) * 2 ^ (j + 1) := by
  have hpos : 0 < 2 ^ j := Nat.pow_pos (by decide)
  have hpos1 : 0 < 2 ^ (j + 1) := Nat.pow_pos (by decide)
  have hsplit : (2 * q + 1) * 2 ^ j = 2 ^ j + q * 2 ^ (j + 1) := by
    rw [Nat.pow_succ]
    ring
  have hn : (2 * q + 1) * 2 ^ j ≠ 0 := Nat.mul_ne_zero (by omega) (Nat.ne_of_gt hpos)
  have hlog : Nat.log2 ((2 * q + 1) * 2 ^ j) = 53 + j := by
    apply Nat.le_antisymm
    · have hlt : (2 * q + 1) * 2 ^ j < 2 ^ (54 + j) := by
        rw [Nat.pow_add]
        exact Nat.mul_lt_mul_of_pos_right (by omega) hpos
      have := (Nat.log2_lt hn).mpr hlt
      omega
    · apply (Nat.le_log2 hn).mpr
      rw [Nat.pow_add]
      exact Nat.mul_le_mul_right _ (by omega)
  have hk : Nat.log2 ((2 * q + 1) * 2 ^ j) - 52 = j + 1 := by omega
  have hlt : 2 ^ j < 2 ^ (j + 1) := Nat.pow_lt_pow_right (by decide) (Nat.lt_succ_self j)
  have hdiv : (2 ^ j + q * 2 ^ (j + 1)) / 2 ^ (j + 1) = q := by
    rw [Nat.add_mul_div_right _ _ hpos1, Nat.div_eq_of_lt hlt, Nat.zero_add]
  have hmod : (2 ^ j + q * 2 ^ (j + 1)) % 2 ^ (j + 1) = 2 ^ j := by
    rw [Nat.add_mul_mod_self_right, Nat.mod_eq_of_lt hlt]
  have htwo : 2 * 2 ^ j = 2 ^ (j + 1) := by
    rw [Nat.pow_succ, Nat.mul_comm]
  simp only [Double.roundMag, hk]
  rw [hsplit, hdiv, hmod, htwo]
  simp only [Nat.lt_irrefl, if_false, true_and]
  rcases Nat.mod_two_eq_zero_or_one q with hq | hq
  · simp [hq]
  · simp [hq]

theorem Double.roundMag_zero : Double.roundMag 0 = 0 := by
  simpa using Double.roundMag_mul_two_pow 0 0 (Nat.zero_le _)

theorem Double.ofMag_zero (s : Bool) : Double.ofMag s 0 = Double.fin s 0 := by
  have hpos : 0 < 2 ^ 2098 := Nat.pow_pos (by decide)
  simp only [Double.ofMag, Double.roundMag_zero, hpos, if_true]

theorem Double.mul_two_pow_lt (a j : Nat) (h : a ≤ 2 ^ 53) (hj : j ≤ 2044) :
    a * 2 ^ j < 2 ^ 2098 :=
  calc a * 2 ^ j ≤ 2 ^ 53 * 2 ^ j := Nat.mul_le_mul_right _ h
    _ = 2 ^ (53 + j) := by rw [← Nat.pow_add]
    _ < 2 ^ 2098 := Nat.pow_lt_pow_right (by decide) (by omega)

theorem Double.ofMag_mul_two_pow_gen (s : Bool) (a j : Nat) (h : a ≤ 2 ^ 53) (hj : j ≤ 2044) :
    Double.ofMag s (a * 2 ^ j) = Double.fin s (a * 2 ^ j) := by
  simp only [Double.ofMag, Double.roundMag_mul_two_pow a j h, Double.mul_two_pow_lt a j h hj,
    if_true]

theorem Double.ofMag_mul_two_pow (s : Bool) (a : Nat) (h : a ≤ 2 ^ 53) :
    Double.ofMag s (a * 2 ^ 1074) = Double.fin s (a * 2 ^ 1074) :=
  Double.ofMag_mul_two_pow_gen s a 1074 h (by decide)

theorem Double.ofMag_whole (s : Bool) (c a i : Nat) (hc : c = a * 2 ^ i) (ha : a ≤ 2 ^ 53)
    (hi : i ≤ 970) : Double.ofMag s (c * 2 ^ 1074) = Double.fin s (c * 2 ^ 1074) := by
  subst hc
  rw [Nat.mul_assoc, ← Nat.pow_add]
  exact Double.ofMag_mul_two_pow_gen s a (i + 1074) ha (by omega)

theorem Double.ofMag_tie (s : Bool) (q : Nat) (h1 : 2 ^ 52 ≤ q) (h2 : q < 2 ^ 53) :
    Double.ofMag s ((2 * q + 1) * 2 ^ 1074) = Double.fin s ((2 * (q + q % 2)) * 2 ^ 1074) := by
  have hle : q + q % 2 ≤ 2 ^ 53 := by omega
  have e : (2 * (q + q % 2)) * 2 ^ 1074 = (q + q % 2) * 2 ^ (1074 + 1) := by
    rw [Nat.pow_succ]
    ring
  simp only [Double.ofMag, Double.roundMag_tie q 1074 h1 h2,
    Double.mul_two_pow_lt _ (1074 + 1) hle (by decide), if_true, e]

theorem Double.ofInt_eq (z : Int) (h : z.natAbs ≤ 2 ^ 53) :
    Double.ofInt z = Double.fin (decide (z < 0)) (z.natAbs * 2 ^ 1074) := by
  unfold Double.ofInt
  exact Double.ofMag_mul_two_pow _ _ h

theorem Double.zero_eq : (0 : Double) = Double.fin false 0 := by
  rw [Double.ofNat_def, Double.ofInt_eq _ (by simp)]
  simp

theorem Double.add_fin_unit (s t : Bool) (a b : Nat) :
    Double.add (Double.fin s (a * 2 ^ 1074)) (Double.fin t (b * 2 ^ 1074)) =
      if s = t then Double.ofMag s ((a + b) * 2 ^ 1074)
      else if b < a then Double.ofMag s ((a - b) * 2 ^ 1074)
      else if a < b then Double.ofMag t ((b - a) * 2 ^ 1074)
      else Double.fin false 0 := by
  have hpos : 0 < 2 ^ 1074 := Nat.pow_pos (by decide)
  simp only [Double.add, Nat.mul_lt_mul_right hpos, ← Nat.add_mul, ← Nat.sub_mul]

theorem Double.add_fin_ofInt (s t : Bool) (a b : Nat) (z : Int)
    (ha : s = true → a ≠ 0) (hb : t = true → b ≠ 0)
    (hz : z = Double.toInt s a + Double.toInt t b) :
    Double.add (Double.fin s (a * 2 ^ 1074)) (Double.fin t (b * 2 ^ 1074)) = Double.ofInt z := by
  rw [Double.add_fin_unit]
  unfold Double.ofInt
  cases s <;> cases t <;> simp only [Double.toInt, Bool.false_eq_true, if_false, if_true] at hz
  · have e : z.natAbs = a + b := by omega
    have hs : ¬ z < 0 := by omega
    simp [e, hs]
  · rcases Nat.lt_trichotomy a b with hc | hc | hc
    · have e : z.natAbs = b - a := by omega
      have hs : z < 0 := by omega
      have hc2 : ¬ b < a := by omega
      simp [e, hs, hc, hc2]
    · have e : z = 0 := by omega
      subst hc
      simp [e, Double.ofMag_zero]
    · have e : z.natAbs = a - b := by omega
      have hs : ¬ z < 0 := by omega
      simp [e, hs, hc]
  · rcases Nat.lt_trichotomy a b with hc | hc | hc
    · have e : z.natAbs = b - a := by omega
      have hs : ¬ z < 0 := by omega
      have hc2 : ¬ b < a := by omega
      simp [e, hs, hc, hc2]
    · have e : z = 0 := by omega
      subst hc
      simp [e, Double.ofMag_zero]
    · have e : z.natAbs = a - b := by omega
      have hs : z < 0 := by omega
      simp [e, hs, hc]
  · have ha0 := ha rfl
    have e : z.natAbs = a + b := by omega
    have hs : z < 0 := by omega
    simp [e, hs]

theorem Double.toInt_natAbs (z : Int) : Double.toInt (decide (z < 0)) z.natAbs = z := by
  by_cases hz : z < 0
  · simp only [Double.toInt, hz, decide_True, if_true]
    omega
  · simp only [Double.toInt, hz, decide_False, Bool.false_eq_true, if_false]
    omega

theorem Double.add_ofInt_of_exact (x y : Int)
    (hx : Double.ofInt x = Double.fin (decide (x < 0)) (x.natAbs * 2 ^ 1074))
    (hy : Double.ofInt y = Double.fin (decide (y < 0)) (y.natAbs * 2 ^ 1074)) :
    Double.ofInt x + Double.ofInt y = Double.ofInt (x + y) := by
  rw [Double.add_def, hx, hy]
  apply Double.add_fin_ofInt
  · intro h
    have : x < 0 := by simpa using h
    omega
  · intro h
    have : y < 0 := by simpa using h
    omega
  · rw [Double.toInt_natAbs, Double.toInt_natAbs]

theorem Double.sub_ofInt_of_exact (x y : Int)
    (hx : Double.ofInt x = Double.fin (decide (x < 0)) (x.natAbs * 2 ^ 1074))
    (hy : Double.ofInt y = Double.fin (decide (y < 0)) (y.natAbs * 2 ^ 1074)) :
    Double.ofInt x - Double.ofInt y = Double.ofInt (x - y) := by
  rw [Double.sub_def, hx, hy]
  simp only [Double.neg]
  by_cases hy0 : y = 0
  · subst hy0
    have hn : (0 : Int).natAbs = 0 := rfl
    have hd : decide ((0 : Int) < 0) = false := rfl
    rw [hn, hd, Double.add_fin_unit, Int.sub_zero]
    unfold Double.ofInt
    by_cases hx0 : x < 0
    · simp [hx0]
    · by_cases hx1 : x.natAbs = 0
      · simp [hx0, hx1, Double.ofMag_zero]
      · have hpos : 0 < x.natAbs := Nat.pos_of_ne_zero hx1
        simp [hx0, hpos]
  · apply Double.add_fin_ofInt
    · intro h
      have : x < 0 := by simpa using h
      omega
    · intro _
      omega
    · rw [Double.toInt_natAbs]
      by_cases hy1 : y < 0
      · simp only [Double.toInt, hy1, decide_True, Bool.not_true, Bool.false_eq_true, if_false]
        omega
      · simp only [Double.toInt, hy1, decide_False, Bool.not_false, if_true]
        omega

theorem Double.toInt_mul (s : Bool) (a u : Nat) :
    Double.toInt s (a * u) = Double.toInt s a * (u : Int) := by
  cases s <;> simp [Double.toInt]

theorem Double.ge_ofInt_of_exact (x y : Int)
    (hx : Double.ofInt x = Double.fin (decide (x < 0)) (x.natAbs * 2 ^ 1074))
    (hy : Double.ofInt y = Double.fin (decide (y < 0)) (y.natAbs * 2 ^ 1074)) :
    Double.ge (Double.ofInt x) (Double.ofInt y) = decide (y ≤ x) := by
  rw [hx, hy]
  simp only [Double.ge, Double.toInt_mul, Double.toInt_natAbs]
  have hpos : (0 : Int) < ((2 ^ 1074 : Nat) : Int) := by
    exact_mod_cast (Nat.pow_pos (by decide) : 0 < 2 ^ 1074)
  congr 1
  exact propext (mul_le_mul_right hpos)

theorem Double.add_ofInt (x y : Int) (h : x.natAbs + y.natAbs ≤ 2 ^ 53) :
    Double.ofInt x + Double.ofInt y = Double.ofInt (x + y) :=
  Double.add_ofInt_of_exact x y (Double.ofInt_eq x (by omega)) (Double.ofInt_eq y (by omega))

theorem Double.sub_ofInt (x y : Int) (h : x.natAbs + y.natAbs ≤ 2 ^ 53) :
    Double.ofInt x - Double.ofInt y = Double.ofInt (x - y) :=
  Double.sub_ofInt_of_exact x y (Double.ofInt_eq x (by omega)) (Double.ofInt_eq y (by omega))

theorem Double.ge_ofInt (x y : Int) (hx : x.natAbs ≤ 2 ^ 53) (hy : y.natAbs ≤ 2 ^ 53) :
    Double.ge (Double.ofInt x) (Double.ofInt y) = decide (y ≤ x) :=
  Double.ge_ofInt_of_exact x y (Double.ofInt_eq x hx) (Double.ofInt_eq y hy)

theorem Double.exact_of_exact (z : Int)
    (hz : Double.ofInt z = Double.fin (decide (z < 0)) (z.natAbs * 2 ^ 1074)) :
    (Double.ofInt z).exact = some (z : ℚ) := by
  rw [hz]
  unfold Double.exact
  have hne : (2 ^ 1074 : Nat) ≠ 0 := Nat.ne_of_gt (Nat.pow_pos (by decide))
  simp only
  rw [Double.toInt_mul, Double.toInt_natAbs]
  have h1 : mkRat (z * ((2 ^ 1074 : Nat) : Int)) (2 ^ 1074) = mkRat z 1 := by
    have := Rat.mkRat_mul_right (n := z) (d := 1) hne
    rwa [Nat.one_mul] at this
  rw [h1, Rat.mkRat_one]

theorem Double.isBinary64_of_exact (z : Int)
    (hz : Double.ofInt z = Double.fin (decide (z < 0)) (z.natAbs * 2 ^ 1074)) :
    (Double.ofInt z).isBinary64 = true := by
  have h := hz
  unfold Double.ofInt Double.ofMag at h
  rw [hz]
  unfold Double.isBinary64
  by_cases hlt : Double.roundMag (z.natAbs * 2 ^ 1074) < 2 ^ 2098
  · rw [if_pos hlt] at h
    have e : Double.roundMag (z.natAbs * 2 ^ 1074) = z.natAbs * 2 ^ 1074 := by
      injection h
    rw [e] at hlt
    simp only [hlt, e, decide_True, Bool.and_self]
  · rw [if_neg hlt] at h
    cases h

/-- The value `1e16` is a binary64 number. -/
theorem Double.ofInt_e16 :
    Double.ofInt 10000000000000000
      = Double.fin (decide ((10000000000000000 : Int) < 0))
          ((10000000000000000 : Int).natAbs * 2 ^ 1074) := by
  unfold Double.ofInt
  exact Double.ofMag_whole _ _ 152587890625 16 (by decide) (by decide) (by decide)

theorem Double.ofInt_neg_e16 :
    Double.ofInt (-10000000000000000)
      = Double.fin (decide ((-10000000000000000 : Int) < 0))
          ((-10000000000000000 : Int).natAbs * 2 ^ 1074) := by
  unfold Double.ofInt
  exact Double.ofMag_whole _ _ 152587890625 16 (by decide) (by decide) (by decide)

/-- The whole number `1e16 + 1` lies halfway between two binary64 numbers and
rounds to the even one, `1e16`. -/
theorem Double.ofInt_e16_succ :
    Double.ofInt 10000000000000001 = Double.ofInt 10000000000000000 := by
  rw [Double.ofInt_e16]
  unfold Double.ofInt
  have h := Double.ofMag_tie false 5000000000000000 (by decide) (by decide)
  have e1 : (10000000000000001 : Int).natAbs = 2 * 5000000000000000 + 1 := by decide
  have e2 : (10000000000000000 : Int).natAbs = 2 * (5000000000000000 + 5000000000000000 % 2) := by
    decide
  have d1 : decide ((10000000000000001 : Int) < 0) = false := by decide
  have d2 : decide ((10000000000000000 : Int) < 0) = false := by decide
  rw [e1, e2, d1, d2]
  exact h

/-- The whole number `1e16 - 1` lies halfway between two binary64 numbers and
rounds to the even one, `1e16`. -/
theorem Double.ofInt_e16_pred :
    Double.ofInt 9999999999999999 = Double.ofInt 10000000000000000 := by
  rw [Double.ofInt_e16]
  unfold Double.ofInt
  have h := Double.ofMag_tie false 4999999999999999 (by decide) (by decide)
  have e1 : (9999999999999999 : Int).natAbs = 2 * 4999999999999999 + 1 := by decide
  have e2 : (10000000000000000 : Int).natAbs = 2 * (4999999999999999 + 4999999999999999 % 2) := by
    decide
  have d1 : decide ((9999999999999999 : Int) < 0) = false := by decide
  have d2 : decide ((10000000000000000 : Int) < 0) = false := by decide
  rw [e1, e2, d1, d2]
  exact h

theorem Double.roundMag_eq_mul (n : Nat) :
    ∃ a, a ≤ 2 ^ 53 ∧ Double.roundMag n = a * 2 ^ (Nat.log2 n - 52) := by
  have hq : n / 2 ^ (Nat.log2 n - 52) < 2 ^ 53 := by
    have hlt : n < 2 ^ (Nat.log2 n + 1) := Nat.lt_log2_self
    by_cases hk : Nat.log2 n ≤ 52
    · have hk0 : Nat.log2 n - 52 = 0 := by omega
      rw [hk0, Nat.pow_zero, Nat.div_one]
      exact Nat.lt_of_lt_of_le hlt (Nat.pow_le_pow_right (by decide) (by omega))
    · apply Nat.div_lt_of_lt_mul
      rw [← Nat.pow_add]
      have e : Nat.log2 n - 52 + 53 = Nat.log2 n + 1 := by omega
      rw [e]
      exact hlt
  unfold Double.roundMag
  simp only
  split
  · exact ⟨_, Nat.le_of_lt hq, rfl⟩
  · split
    · exact ⟨_, Nat.le_of_lt hq, rfl⟩
    · exact ⟨_, hq, rfl⟩

theorem Double.roundMag_idem (n : Nat) :
    Double.roundMag (Double.roundMag n) = Double.roundMag n := by
  obtain ⟨a, ha, he⟩ := Double.roundMag_eq_mul n
  rw [he]
  exact Double.roundMag_mul_two_pow a _ ha

/-- The result of rounding is a binary64 value. -/
theorem Double.ofMag_isBinary64 (s : Bool) (n : Nat) : (Double.ofMag s n).isBinary64 = true := by
  unfold Double.ofMag
  split
  · rename_i h
    unfold Double.isBinary64
    simp only [h, Double.roundMag_idem, decide_True, Bool.and_self]
  · unfold Double.isBinary64
    rfl

/-- The conversion of an integer is a binary64 value. -/
theorem Double.ofInt_isBinary64 (z : Int) : (Double.ofInt z).isBinary64 = true := by
  unfold Double.ofInt
  exact Double.ofMag_isBinary64 _ _

/-- Sums are binary64 values, whatever the operands. -/
theorem Double.add_isBinary64 (x y : Double) : (x + y).isBinary64 = true := by
  rw [Double.add_def]
  have hz : (Double.fin false 0).isBinary64 = true := by
    rw [← Double.ofMag_zero false]
    exact Double.ofMag_isBinary64 false 0
  have hn : Double.nan.isBinary64 = true := by
    unfold Double.isBinary64
    rfl
  have hi : ∀ s, (Double.inf s).isBinary64 = true := by
    intro s
    unfold Double.isBinary64
    rfl
  cases x with
  | nan => simpa [Double.add] using hn
  | inf s =>
    cases y with
    | nan => simpa [Double.add] using hn
    | inf t =>
      simp only [Double.add]
      split
      · exact hi s
      · exact hn
    | fin t n => simpa [Double.add] using hi s
  | fin s m =>
    cases y with
    | nan => simpa [Double.add] using hn
    | inf t => simpa [Double.add] using hi t
    | fin t n =>
      simp only [Double.add]
      split
      · exact Double.ofMag_isBinary64 _ _
      · split
        · exact Double.ofMag_isBinary64 _ _
        · split
          · exact Double.ofMag_isBinary64 _ _
          · exact hz

/-- Differences are binary64 values, whatever the operands. -/
theorem Double.sub_isBinary64 (x y : Double) : (x - y).isBinary64 = true :=
  Double.add_isBinary64 x (Double.neg y)

theorem Double.ge_ofMag_zero (k : Nat) :
    Double.ge (Double.ofMag false k) (Double.fin false 0) = true := by
  unfold Double.ofMag
  split <;> simp [Double.ge, Double.toInt]

theorem Double.sub_inf_self (s : Bool) : Double.inf s - Double.inf s = Double.nan := by
  rw [Double.sub_def]
  cases s <;> rfl

theorem Double.sub_nonneg_of_ge (b a : Double) (h : Double.ge b a = true)
    (hinf : ∀ s, ¬ (b = Double.inf s ∧ a = Double.inf s)) :
    Double.ge (b - a) 0 = true := by
  rw [Double.sub_def, Double.zero_eq]
  cases b with
  | nan => simp [Double.ge] at h
  | inf s =>
    cases a with
    | nan => cases s <;> simp [Double.ge] at h
    | inf t =>
      cases s <;> cases t
      · exact absurd ⟨rfl, rfl⟩ (hinf false)
      · rfl
      · simp [Double.ge] at h
      · exact absurd ⟨rfl, rfl⟩ (hinf true)
    | fin t n =>
      cases s
      · rfl
      · simp [Double.ge] at h
  | fin s m =>
    cases a with
    | nan => simp [Double.ge] at h
    | inf t =>
      cases t
      · simp [Double.ge] at h
      · rfl
    | fin t n =>
      simp only [Double.ge, decide_eq_true_eq] at h
      simp only [Double.neg, Double.add]
      cases s <;> cases t <;>
        simp only [Double.toInt, Bool.false_eq_true, if_true, if_false] at h
      · have hnm : ¬ m < n := by omega
        by_cases hlt : n < m
        · simpa [hlt] using Double.ge_ofMag_zero (m - n)
        · simp [hlt, hnm, Double.ge, Double.toInt]
      · simpa using Double.ge_ofMag_zero (m + n)
      · have hm : m = 0 := by omega
        have hn : n = 0 := by omega
        subst hm hn
        simp [Double.ofMag_zero, Double.ge, Double.toInt]
      · have hnm : ¬ n < m := by omega
        by_cases hlt : m < n
        · simpa [hlt, hnm] using Double.ge_ofMag_zero (n - m)
        · simp [hlt, hnm, Double.ge, Double.toInt]

theorem Double.not_lt_zero_of_ge_zero (x : Double) (h : Double.ge x 0 = true) :
    Double.lt x 0 = false := by
  rw [Double.zero_eq] at h ⊢
  cases x with
  | nan => rfl
  | inf s => cases s <;> simp [Double.ge, Double.lt] at h ⊢
  | fin s m =>
    simp only [Double.ge, Double.lt, decide_eq_true_eq, decide_eq_false_iff_not] at h ⊢
    omega

theorem Double.sub_not_lt_zero_of_ge (b a : Double) (h : Double.ge b a = true) :
    Double.lt (b - a) 0 = false := by
  by_cases hinf : ∃ s, b = Double.inf s ∧ a = Double.inf s
  · obtain ⟨s, hb, ha⟩ := hinf
    rw [hb, ha, Double.sub_inf_self, Double.zero_eq]
    rfl
  · exact Double.not_lt_zero_of_ge_zero _
      (Double.sub_nonneg_of_ge b a h (fun s hs => hinf ⟨s, hs⟩))

/-! ## Properties of `Account` -/

theorem Account.withdraw_fst (acc : Account) (amount : Double) :
    (acc.withdraw amount).1 = Double.ge acc.balance amount := by
  unfold Account.withdraw
  cases h : Double.ge acc.balance amount <;> simp

theorem Account.withdraw_snd_of_ge (acc : Account) (amount : Double)
    (h : Double.ge acc.balance amount = true) :
    (acc.withdraw amount).2 = { acc with balance := acc.balance - amount } := by
  unfold Account.withdraw
  simp [h]

theorem Account.withdraw_snd_of_lt (acc : Account) (amount : Double)
    (h : Double.ge acc.balance amount = false) : (acc.withdraw amount).2 = acc := by
  unfold Account.withdraw
  simp [h]

theorem Account.withdrawRepeat_of_lt (acc : Account) (amount : Double)
    (h : Double.ge acc.balance amount = false) (n : Nat) :
    acc.withdrawRepeat amount n = (List.replicate n false, acc) := by
  induction n with
  | zero => rfl
  | succ k ih =>
    simp only [Account.withdrawRepeat, Account.withdraw_snd_of_lt acc amount h, ih,
      Account.withdraw_fst, List.replicate_succ, h]

theorem Account.withdraw_ofInt_of_exact (id : Int) (b a : Int)
    (hb : Double.ofInt b = Double.fin (decide (b < 0)) (b.natAbs * 2 ^ 1074))
    (ha : Double.ofInt a = Double.fin (decide (a < 0)) (a.natAbs * 2 ^ 1074)) :
    (Account.mk id (Double.ofInt b)).withdraw (Double.ofInt a)
      = if a ≤ b then (true, Account.mk id (Double.ofInt (b - a)))
        else (false, Account.mk id (Double.ofInt b)) := by
  have hge := Double.ge_ofInt_of_exact b a hb ha
  by_cases hab : a ≤ b
  · simp only [Account.withdraw, hge, hab, decide_True, if_true,
      Double.sub_ofInt_of_exact b a hb ha]
  · simp only [Account.withdraw, hge, hab, decide_False, Bool.false_eq_true, if_false]

theorem Account.withdraw_ofInt (id : Int) (b a : Int) (h : b.natAbs + a.natAbs ≤ 2 ^ 53) :
    (Account.mk id (Double.ofInt b)).withdraw (Double.ofInt a)
      = if a ≤ b then (true, Account.mk id (Double.ofInt (b - a)))
        else (false, Account.mk id (Double.ofInt b)) :=
  Account.withdraw_ofInt_of_exact id b a (Double.ofInt_eq b (by omega))
    (Double.ofInt_eq a (by omega))

theorem Account.depositAll_ofInt (id : Int) (b0 : Int) (amounts : List Int)
    (h : b0.natAbs + (amounts.map Int.natAbs).sum ≤ 2 ^ 53) :
    (Account.mk id (Double.ofInt b0)).depositAll (amounts.map Double.ofInt)
      = Account.mk id (Double.ofInt (b0 + amounts.sum)) := by
  induction amounts generalizing b0 with
  | nil => simp [Account.depositAll]
  | cons a rest ih =>
    simp only [List.map_cons, List.sum_cons] at h
    have hstep : (Account.mk id (Double.ofInt b0)).deposit (Double.ofInt a)
        = Account.mk id (Double.ofInt (b0 + a)) := by
      simp only [Account.deposit, Double.add_ofInt b0 a (by omega)]
    have hrec := ih (b0 + a) (by omega)
    simp only [Account.depositAll, List.map_cons, List.foldl_cons, List.sum_cons] at hrec ⊢
    rw [hstep, hrec, Int.add_assoc]

theorem Account.withdrawAll_ofInt (id : Int) (b0 : Int) (amounts : List Int)
    (h : b0.natAbs + (amounts.map Int.natAbs).sum ≤ 2 ^ 53) :
    ((Account.mk id (Double.ofInt b0)).withdrawAll (amounts.map Double.ofInt)).2
      = Account.mk id (Double.ofInt (b0 - Account.paid
          ((Account.mk id (Double.ofInt b0)).withdrawAll (amounts.map Double.ofInt)).1 amounts)) ∧
    ((0 ≤ b0 ∨ true ∈ ((Account.mk id (Double.ofInt b0)).withdrawAll
          (amounts.map Double.ofInt)).1) →
      Account.paid ((Account.mk id (Double.ofInt b0)).withdrawAll
          (amounts.map Double.ofInt)).1 amounts ≤ b0 ∧
      0 ≤ b0 - Account.paid ((Account.mk id (Double.ofInt b0)).withdrawAll
          (amounts.map Double.ofInt)).1 amounts) := by
  induction amounts generalizing b0 with
  | nil =>
    simp only [Account.withdrawAll, List.map_nil, Account.paid, Int.sub_zero,
      List.not_mem_nil, or_false, true_and]
    intro h0
    omega
  | cons a rest ih =>
    simp only [List.map_cons, List.sum_cons] at h
    have hw := Account.withdraw_ofInt id b0 a (by omega)
    by_cases hab : a ≤ b0
    · simp only [hab, if_true] at hw
      have hrec := ih (b0 - a) (by omega)
      simp only [Account.withdrawAll, List.map_cons, hw, Account.paid]
      refine ⟨?_, fun _ => ?_⟩
      · rw [hrec.1]
        congr 2
        omega
      · have := hrec.2 (Or.inl (by omega))
        omega
    · simp only [hab, if_false] at hw
      have hrec := ih b0 (by omega)
      simp only [Account.withdrawAll, List.map_cons, hw, Account.paid]
      refine ⟨hrec.1, fun h0 => hrec.2 ?_⟩
      rcases h0 with h0 | h0
      · exact Or.inl h0
      · right
        rcases List.mem_cons.mp h0 with h1 | h1
        · cases h1
        · exact h1

theorem Double.max_add_max :
    Double.fin false (9007199254740991 * 2 ^ 2045) + Double.fin false (9007199254740991 * 2 ^ 2045)
      = Double.inf false := by
  have e : 9007199254740991 * 2 ^ 2045 + 9007199254740991 * 2 ^ 2045
      = 9007199254740991 * 2 ^ 2046 := by
    rw [show (2046 : Nat) = 2045 + 1 from rfl, Nat.pow_succ]
    ring
  have hge : ¬ 9007199254740991 * 2 ^ 2046 < 2 ^ 2098 := by
    have h1 : 2 ^ 2098 = 2 ^ 52 * 2 ^ 2046 := by rw [← Nat.pow_add]
    rw [h1, Nat.not_lt]
    exact Nat.mul_le_mul_right _ (by decide)
  rw [Double.add_def]
  simp only [Double.add, if_true, e]
  unfold Double.ofMag
  rw [Double.roundMag_mul_two_pow _ 2046 (by decide), if_neg hge]

theorem Double.max_isBinary64 :
    (Double.fin false (9007199254740991 * 2 ^ 2045)).isBinary64 = true := by
  unfold Double.isBinary64
  have hlt : 9007199254740991 * 2 ^ 2045 < 2 ^ 2098 := by
    have h1 : 2 ^ 2098 = 2 ^ 53 * 2 ^ 2045 := by rw [← Nat.pow_add]
    rw [h1]
    exact Nat.mul_lt_mul_of_pos_right (by decide) (Nat.pow_pos (by decide))
  simp only [Double.roundMag_mul_two_pow _ 2045 (show 9007199254740991 ≤ 2 ^ 53 by decide), hlt,
    decide_True, Bool.and_self]

/-! ## Properties of `Bank` -/

theorem Bank.find_filter_ne (m : List (Int × Nat)) (key j : Int) (h : j ≠ key) :
    Bank.find (m.filter (fun p => p.1 ≠ key)) j = Bank.find m j := by
  induction m with
  | nil => rfl
  | cons p rest ih =>
    obtain ⟨k, v⟩ := p
    simp only [ne_eq, decide_not] at ih
    by_cases hk : k = key
    · have hj : ¬ key = j := fun e => h e.symm
      simp [List.filter_cons, hk, Bank.find, hj, ih]
    · by_cases hj : k = j
      · have hjk : ¬ j = key := fun e => hk (hj.trans e)
        simp [List.filter_cons, Bank.find, hj, hjk]
      · simp [List.filter_cons, hk, Bank.find, hj, ih]

theorem Bank.find_assign_same (m : List (Int × Nat)) (key : Int) (value : Nat) :
    Bank.find (Bank.assign m key value) key = some value := by
  simp [Bank.assign, Bank.find]

theorem Bank.find_assign_ne (m : List (Int × Nat)) (key j : Int) (value : Nat)
    (h : j ≠ key) : Bank.find (Bank.assign m key value) j = Bank.find m j := by
  have hk : ¬ key = j := fun e => h e.symm
  simp only [Bank.assign, Bank.find, hk, if_false]
  exact Bank.find_filter_ne m key j h

theorem Bank.getAccount_eq_find (b : Bank) (account_id : Int) :
    b.getAccount account_id = Bank.find b.accounts account_id := by
  unfold Bank.getAccount
  cases Bank.find b.accounts account_id <;> rfl

theorem Bank.entries_assign (m : List (Int × Nat)) (key : Int) (value : Nat) :
    ((Bank.assign m key value).filter (fun p => p.1 = key)).map Prod.snd = [value] := by
  simp only [Bank.assign, List.filter_cons, decide_True, if_true, List.map_cons]
  have : (m.filter (fun p => p.1 ≠ key)).filter (fun p => p.1 = key) = [] := by
    rw [List.filter_filter, List.filter_eq_nil_iff]
    intro p _
    by_cases hp : p.1 = key <;> simp [hp]
  simp [this]

theorem Bank.createAccount_fst (b : Bank) (id : Int) (v : Double) :
    (b.createAccount id v).1 = b.heap.length := rfl

theorem Bank.createAccount_accounts (b : Bank) (id : Int) (v : Double) :
    (b.createAccount id v).2.accounts = Bank.assign b.accounts id b.heap.length := rfl

theorem Bank.deref_createAccount_new (b : Bank) (id : Int) (v : Double) :
    (b.createAccount id v).2.deref (b.createAccount id v).1 = some (Account.mk id v) := by
  simp [Bank.deref, Bank.createAccount]

theorem Bank.deref_createAccount_old (b : Bank) (id : Int) (v : Double) (h : Nat)
    (hlt : h < b.heap.length) : (b.createAccount id v).2.deref h = b.deref h := by
  simp [Bank.deref, Bank.createAccount, List.getElem?_append_left hlt]

theorem Bank.getAccount_createAccount_same (b : Bank) (id : Int) (v : Double) :
    (b.createAccount id v).2.getAccount id = some b.heap.length := by
  rw [Bank.getAccount_eq_find, Bank.createAccount_accounts, Bank.find_assign_same]

theorem Bank.getAccount_createAccount_ne (b : Bank) (id j : Int) (v : Double)
    (h : j ≠ id) : (b.createAccount id v).2.getAccount j = b.getAccount j := by
  rw [Bank.getAccount_eq_find, Bank.createAccount_accounts, Bank.find_assign_ne _ _ _ _ h,
    Bank.getAccount_eq_find]

theorem Bank.deposit_accounts (b : Bank) (h : Nat) (a : Double) :
    (b.deposit h a).accounts = b.accounts := by
  unfold Bank.deposit
  cases b.heap[h]? <;> rfl

theorem Bank.withdraw_accounts (b : Bank) (h : Nat) (a : Double) :
    (b.withdraw h a).2.accounts = b.accounts := by
  unfold Bank.withdraw
  cases b.heap[h]? <;> rfl

theorem Bank.getAccount_deposit (b : Bank) (h : Nat) (a : Double) (j : Int) :
    (b.deposit h a).getAccount j = b.getAccount j := by
  simp only [Bank.getAccount_eq_find, Bank.deposit_accounts]

theorem Bank.getAccount_withdraw (b : Bank) (h : Nat) (a : Double) (j : Int) :
    (b.withdraw h a).2.getAccount j = b.getAccount j := by
  simp only [Bank.getAccount_eq_find, Bank.withdraw_accounts]

/-- Counterexample to C1: on balance `1e16` the call `withdraw(1.0)` returns
`true` and leaves the balance `1e16`: the exact difference `9999999999999999`
is not a binary64 number and the subtraction rounds it back to `1e16`. -/
theorem Account.withdraw_rounds :
    (Account.mk 1 (Double.ofInt 10000000000000000)).withdraw (Double.ofInt 1)
      = (true, Account.mk 1 (Double.ofInt 10000000000000000)) ∧
    (Double.ofInt 10000000000000000).isBinary64 = true ∧
    (Double.ofInt 1).isBinary64 = true ∧
    (Double.ofInt 10000000000000000).exact = some 10000000000000000 ∧
    (Double.ofInt 1).exact = some 1 ∧
    (10000000000000000 : ℚ) ≠ 10000000000000000 - 1 := by
  have h1 := Double.ofInt_eq 1 (by decide)
  refine ⟨?_, Double.isBinary64_of_exact _ Double.ofInt_e16, Double.isBinary64_of_exact _ h1,
    ?_, ?_, by norm_num⟩
  · rw [Account.withdraw_ofInt_of_exact 1 _ _ Double.ofInt_e16 h1, if_pos (by decide)]
    have e : (10000000000000000 : Int) - 1 = 9999999999999999 := by decide
    rw [e, Double.ofInt_e16_pred]
  · simpa using Double.exact_of_exact _ Double.ofInt_e16
  · simpa using Double.exact_of_exact _ h1

/-- C1 (amended): `withdraw(a)` on balance `b` returns `true` exactly when
`b >= a` holds in binary64 (it fails when either is NaN); on `true` the new
balance is the binary64 difference `b - a`, the exact difference rounded to
nearest, which is the exact difference for whole numbers with
`|b| + |a| <= 2^53`; on `false` the account is unchanged, and the same failing
call issued `n` times in a row fails every time and leaves the account as it
was.  For instance `withdraw(1000)` on balance `100` returns `false` and keeps
`100`. -/
theorem Account.withdraw_contract (acc : Account) (amount : Double) (n : Nat)
    (id b a : Int) :
    ((acc.withdraw amount).1 = true ↔ Double.ge acc.balance amount = true) ∧
    ((acc.withdraw amount).1 = true →
      (acc.withdraw amount).2 = { acc with balance := acc.balance - amount }) ∧
    ((acc.withdraw amount).1 = false →
      (acc.withdraw amount).2 = acc ∧
      acc.withdrawRepeat amount n = (List.replicate n false, acc)) ∧
    (b.natAbs + a.natAbs ≤ 2 ^ 53 → a ≤ b →
      (Account.mk id (Double.ofInt b)).withdraw (Double.ofInt a)
        = (true, Account.mk id (Double.ofInt (b - a)))) ∧
    (Account.mk 1 (Double.ofInt 100)).withdraw (Double.ofInt 1000)
      = (false, Account.mk 1 (Double.ofInt 100)) := by
  refine ⟨?_, ?_, ?_, ?_, ?_⟩
  · rw [Account.withdraw_fst]
  · intro h
    rw [Account.withdraw_fst] at h
    exact Account.withdraw_snd_of_ge acc amount h
  · intro h
    rw [Account.withdraw_fst] at h
    exact ⟨Account.withdraw_snd_of_lt acc amount h,
      Account.withdrawRepeat_of_lt acc amount h n⟩
  · intro hb hab
    rw [Account.withdraw_ofInt id b a hb, if_pos hab]
  · rw [Account.withdraw_ofInt 1 100 1000 (by decide), if_neg (by decide)]

/-- Witness of C1 (amended): `withdraw(30)` on balance `100` returns `true`
and leaves `70`. -/
theorem Account.withdraw_contract_witness :
    (Account.mk 1 (Double.ofInt 100)).withdraw (Double.ofInt 30)
      = (true, Account.mk 1 (Double.ofInt (100 - 30))) :=
  (Account.withdraw_contract (Account.mk 1 (Double.ofInt 100)) (Double.ofInt 30) 0 1 100 30).2.2.2.1
    (by decide) (by decide)

/-- Counterexample to C2: a deposit of the largest binary64 number on a balance
holding that same number overflows the balance to `+inf`; on that balance
`withdraw(+inf)` returns `true` and leaves NaN, which is not `>= 0` and is not
the old balance. -/
theorem Account.withdraw_inf_leaves_nan :
    (Account.mk 1 (Double.fin false (9007199254740991 * 2 ^ 2045))).deposit
        (Double.fin false (9007199254740991 * 2 ^ 2045))
      = Account.mk 1 (Double.inf false) ∧
    (Double.fin false (9007199254740991 * 2 ^ 2045)).isBinary64 = true ∧
    (Account.mk 1 (Double.inf false)).withdraw (Double.inf false)
      = (true, Account.mk 1 Double.nan) ∧
    Double.ge Double.nan 0 = false ∧
    Double.nan ≠ Double.inf false := by
  refine ⟨?_, Double.max_isBinary64, rfl, ?_, by decide⟩
  · simp only [Account.deposit, Double.max_add_max]
  · rw [Double.zero_eq]
    rfl

/-- C2 (amended): for every balance `b` and every amount `a`, of either sign,
that are not the same infinity, `withdraw` either returns `true` and leaves a
balance `>= 0`, or returns `false` and leaves the account as it was; when `b`
and `a` are the same infinity it returns `true` and leaves NaN; in every case a
balance that was not negative is never made negative. -/
theorem Account.withdraw_never_negative (acc : Account) (amount : Double) :
    ((∀ s, ¬ (acc.balance = Double.inf s ∧ amount = Double.inf s)) →
      ((acc.withdraw amount).1 = true ∧
        Double.ge (acc.withdraw amount).2.balance 0 = true) ∨
      ((acc.withdraw amount).1 = false ∧ (acc.withdraw amount).2 = acc)) ∧
    (∀ s, acc.balance = Double.inf s → amount = Double.inf s →
      acc.withdraw amount = (true, { acc with balance := Double.nan })) ∧
    ¬ (Double.lt acc.balance 0 = false ∧
        Double.lt (acc.withdraw amount).2.balance 0 = true) := by
  refine ⟨?_, ?_, ?_⟩
  · intro hinf
    cases h : Double.ge acc.balance amount with
    | true =>
      refine Or.inl ⟨by rw [Account.withdraw_fst, h], ?_⟩
      rw [Account.withdraw_snd_of_ge acc amount h]
      exact Double.sub_nonneg_of_ge acc.balance amount h hinf
    | false =>
      exact Or.inr ⟨by rw [Account.withdraw_fst, h], Account.withdraw_snd_of_lt acc amount h⟩
  · intro s hb ha
    have h : Double.ge acc.balance amount = true := by
      rw [hb, ha]
      cases s <;> rfl
    refine Prod.ext ?_ ?_
    · rw [Account.withdraw_fst, h]
    · rw [Account.withdraw_snd_of_ge acc amount h, hb, ha, Double.sub_inf_self]
  · intro hc
    cases h : Double.ge acc.balance amount with
    | true =>
      have h1 := Double.sub_not_lt_zero_of_ge acc.balance amount h
      rw [Account.withdraw_snd_of_ge acc amount h] at hc
      rw [h1] at hc
      exact Bool.false_ne_true hc.2
    | false =>
      rw [Account.withdraw_snd_of_lt acc amount h, hc.1] at hc
      exact Bool.false_ne_true hc.2

/-- Witness of C2 (amended): `withdraw(30)` on balance `100` succeeds and
leaves a balance `>= 0`. -/
theorem Account.withdraw_never_negative_witness :
    ((Account.mk 1 (Double.ofInt 100)).withdraw (Double.ofInt 30)).1 = true ∧
    Double.ge ((Account.mk 1 (Double.ofInt 100)).withdraw (Double.ofInt 30)).2.balance 0
      = true :=
  ((Account.withdraw_never_negative (Account.mk 1 (Double.ofInt 100)) (Double.ofInt 30)).1
    (fun _ h => by
      have h1 : Double.ofInt 100 = _ := h.1
      rw [Double.ofInt_eq 100 (by decide)] at h1
      cases h1)).resolve_right
    (fun h => by
      have h1 := h.1
      rw [Account.withdraw_ofInt 1 100 30 (by decide), if_pos (by decide)] at h1
      cases h1)

/-- Counterexample to C3: on balance `0` the deposits `1e16`, `1`, `-1e16`
leave `0`, and the same deposits in the order `1e16`, `-1e16`, `1` leave `1`;
the exact sum is `1`. -/
theorem Account.depositAll_order_dependent :
    (Account.mk 1 (Double.ofInt 0)).depositAll
        [Double.ofInt 10000000000000000, Double.ofInt 1, Double.ofInt (-10000000000000000)]
      = Account.mk 1 (Double.ofInt 0) ∧
    (Account.mk 1 (Double.ofInt 0)).depositAll
        [Double.ofInt 10000000000000000, Double.ofInt (-10000000000000000), Double.ofInt 1]
      = Account.mk 1 (Double.ofInt 1) ∧
    Double.ofInt 0 ≠ Double.ofInt 1 ∧
    (Double.ofInt 0).exact = some 0 ∧
    (Double.ofInt 1).exact = some 1 ∧
    (Double.ofInt 10000000000000000).exact = some 10000000000000000 ∧
    (Double.ofInt (-10000000000000000)).exact = some (-10000000000000000) ∧
    (0 : ℚ) + (10000000000000000 + 1 + -10000000000000000) = 1 ∧
    List.Perm
      [Double.ofInt 10000000000000000, Double.ofInt (-10000000000000000), Double.ofInt 1]
      [Double.ofInt 10000000000000000, Double.ofInt 1, Double.ofInt (-10000000000000000)] := by
  have h0 := Double.ofInt_eq 0 (by decide)
  have h1 := Double.ofInt_eq 1 (by decide)
  have hT := Double.ofInt_e16
  have hN := Double.ofInt_neg_e16
  have s1 : Double.ofInt 0 + Double.ofInt 10000000000000000 = Double.ofInt 10000000000000000 :=
    Double.add_ofInt_of_exact 0 _ h0 hT
  have s2 : Double.ofInt 10000000000000000 + Double.ofInt 1 = Double.ofInt 10000000000000000 := by
    rw [Double.add_ofInt_of_exact _ 1 hT h1]
    exact Double.ofInt_e16_succ
  have s3 : Double.ofInt 10000000000000000 + Double.ofInt (-10000000000000000)
      = Double.ofInt 0 :=
    Double.add_ofInt_of_exact _ _ hT hN
  have s4 : Double.ofInt 0 + Double.ofInt 1 = Double.ofInt 1 :=
    Double.add_ofInt_of_exact 0 1 h0 h1
  refine ⟨?_, ?_, ?_, ?_, ?_, ?_, ?_, by norm_num, (List.Perm.swap _ _ _).cons _⟩
  · simp only [Account.depositAll, List.foldl, Account.deposit, s1, s2, s3]
  · simp only [Account.depositAll, List.foldl, Account.deposit, s1, s3, s4]
  · rw [h0, h1]
    intro h
    injection h with _ hm
    have hpos : 0 < 2 ^ 1074 := Nat.pow_pos (by decide)
    have e0 : (0 : Int).natAbs = 0 := rfl
    have e1 : (1 : Int).natAbs = 1 := rfl
    rw [e0, e1, Nat.zero_mul, Nat.one_mul] at hm
    omega
  · simpa using Double.exact_of_exact _ h0
  · simpa using Double.exact_of_exact _ h1
  · simpa using Double.exact_of_exact _ hT
  · simpa using Double.exact_of_exact _ hN

/-- C3 (amended): for a whole initial balance `b0` and whole deposit amounts
`d1..dn` with `|b0| + |d1| + ... + |dn| <= 2^53`, the deposits applied to one
account in any order (any permutation of the list, each deposit one atomic
step) leave the balance exactly `b0 + (d1 + ... + dn)` and keep the
identifier; a deposit is never refused, whatever the sign of its amount: it
replaces the balance by the binary64 sum of balance and amount. -/
theorem Account.depositAll_any_order (id b0 : Int) (amounts order : List Int)
    (hperm : order.Perm amounts)
    (hbound : b0.natAbs + (amounts.map Int.natAbs).sum ≤ 2 ^ 53) :
    (Account.mk id (Double.ofInt b0)).depositAll (order.map Double.ofInt)
      = Account.mk id (Double.ofInt (b0 + amounts.sum)) ∧
    (∀ (acc : Account) (amount : Double),
      acc.deposit amount = { acc with balance := acc.balance + amount }) := by
  refine ⟨?_, fun _ _ => rfl⟩
  have hb : b0.natAbs + (order.map Int.natAbs).sum ≤ 2 ^ 53 := by
    rw [(hperm.map Int.natAbs).sum_eq]
    exact hbound
  rw [Account.depositAll_ofInt id b0 order hb, hperm.sum_eq]

/-- Witness of C3 (amended): 100 deposits of `1.0` on balance `0.0` give
exactly `100.0`. -/
theorem Account.depositAll_any_order_witness :
    (Account.mk 1 (Double.ofInt 0)).depositAll ((List.replicate 100 1).map Double.ofInt)
      = Account.mk 1 (Double.ofInt 100) := by
  have h := (Account.depositAll_any_order 1 0 (List.replicate 100 1) (List.replicate 100 1)
    (List.Perm.refl _) (by rw [List.map_replicate, List.sum_replicate]; decide)).1
  rw [List.sum_replicate] at h
  simpa using h

/-- Counterexample to C7: on an account opened with balance `-5` the call
`withdraw(1000)` fails, so the amounts of the successful calls sum to `0`,
which exceeds the initial balance; and on balance `1e16` the calls
`withdraw(1)` and `withdraw(1e16)` both succeed, because `1e16 - 1` rounds to
`1e16`: they pay out `1e16 + 1`, more than the initial balance, and leave `0`. -/
theorem Account.withdrawAll_exceeds_balance :
    (Account.mk 1 (Double.ofInt (-5))).withdrawAll [Double.ofInt 1000]
      = ([false], Account.mk 1 (Double.ofInt (-5))) ∧
    ¬ (Account.paid [false] [1000] ≤ -5) ∧
    (Account.mk 1 (Double.ofInt 10000000000000000)).withdrawAll
        [Double.ofInt 1, Double.ofInt 10000000000000000]
      = ([true, true], Account.mk 1 (Double.ofInt 0)) ∧
    ¬ (Account.paid [true, true] [1, 10000000000000000] ≤ 10000000000000000) := by
  have h1 := Double.ofInt_eq 1 (by decide)
  have hT := Double.ofInt_e16
  have w0 := Account.withdraw_ofInt 1 (-5) 1000 (by decide)
  rw [if_neg (by decide)] at w0
  have w1 := Account.withdraw_ofInt_of_exact 1 _ _ hT h1
  rw [if_pos (by decide), show (10000000000000000 : Int) - 1 = 9999999999999999 by decide,
    Double.ofInt_e16_pred] at w1
  have w2 := Account.withdraw_ofInt_of_exact 1 _ _ hT hT
  rw [if_pos (by decide), show (10000000000000000 : Int) - 10000000000000000 = 0 by decide] at w2
  refine ⟨?_, by decide, ?_, by decide⟩
  · simp only [Account.withdrawAll, w0]
  · simp only [Account.withdrawAll, w1, w2]

/-- C7 (amended): for a whole initial balance `b0` and whole amounts with
`|b0| + |a1| + ... + |an| <= 2^53`, after the sequence of `withdraw` calls the
balance is exactly `b0` minus the sum of the amounts of the calls that
returned `true`; that sum does not exceed `b0` whenever `b0` is not negative
or at least one call returned `true`. -/
theorem Account.withdrawAll_bounded (id b0 : Int) (amounts : List Int)
    (hbound : b0.natAbs + (amounts.map Int.natAbs).sum ≤ 2 ^ 53) :
    ((Account.mk id (Double.ofInt b0)).withdrawAll (amounts.map Double.ofInt)).2
      = Account.mk id (Double.ofInt (b0 - Account.paid
          ((Account.mk id (Double.ofInt b0)).withdrawAll (amounts.map Double.ofInt)).1
          amounts)) ∧
    ((0 ≤ b0 ∨ true ∈ ((Account.mk id (Double.ofInt b0)).withdrawAll
          (amounts.map Double.ofInt)).1) →
      Account.paid ((Account.mk id (Double.ofInt b0)).withdrawAll
          (amounts.map Double.ofInt)).1 amounts ≤ b0) := by
  have h := Account.withdrawAll_ofInt id b0 amounts hbound
  exact ⟨h.1, fun h0 => (h.2 h0).1⟩

/-- Witness of C7 (amended): on balance `100` the calls `withdraw(60)`,
`withdraw(60)`, `withdraw(30)` pay out at most `100`. -/
theorem Account.withdrawAll_bounded_witness :
    Account.paid ((Account.mk 1 (Double.ofInt 100)).withdrawAll
      ([60, 60, 30].map Double.ofInt)).1 [60, 60, 30] ≤ 100 :=
  (Account.withdrawAll_bounded 1 100 [60, 60, 30] (by decide)).2 (Or.inl (by decide))

/-- C4: `createAccount(id, b)` returns a handle that addressed no account
before the call and now addresses an account with `getId() = id` and
`getBalance() = b`, the accounts allocated earlier being untouched; afterwards
`getAccount(id)` returns that handle and `getAccount(j)` is unchanged for every
`j != id`.  Two accounts created under different identifiers both stay
resolvable (the identifiers are arbitrary, so this covers both orders); two
accounts created under the same identifier leave one map entry for it, the
handle created last. -/
theorem Bank.createAccount_contract (b : Bank) (id id2 j : Int) (v v2 : Double) (h : Nat) :
    b.deref (b.createAccount id v).1 = none ∧
    (b.createAccount id v).2.deref (b.createAccount id v).1 = some (Account.mk id v) ∧
    (Account.mk id v).getId = id ∧
    (b.createAccount id v).2.getBalance (b.createAccount id v).1 = v ∧
    (h < b.heap.length → (b.createAccount id v).2.deref h = b.deref h) ∧
    (b.createAccount id v).2.getAccount id = some (b.createAccount id v).1 ∧
    (j ≠ id → (b.createAccount id v).2.getAccount j = b.getAccount j) ∧
    (id ≠ id2 →
      ((b.createAccount id v).2.createAccount id2 v2).2.getAccount id
          = some (b.createAccount id v).1 ∧
      ((b.createAccount id v).2.createAccount id2 v2).2.getAccount id2
          = some ((b.createAccount id v).2.createAccount id2 v2).1 ∧
      ((b.createAccount id v).2.createAccount id2 v2).2.deref (b.createAccount id v).1
          = some (Account.mk id v) ∧
      ((b.createAccount id v).2.createAccount id2 v2).2.deref
          ((b.createAccount id v).2.createAccount id2 v2).1 = some (Account.mk id2 v2)) ∧
    ((b.createAccount id v).2.createAccount id v2).2.entries id
        = [((b.createAccount id v).2.createAccount id v2).1] ∧
    ((b.createAccount id v).2.createAccount id v2).2.getAccount id
        = some ((b.createAccount id v).2.createAccount id v2).1 ∧
    ((b.createAccount id v).2.createAccount id v2).2.deref
        ((b.createAccount id v).2.createAccount id v2).1 = some (Account.mk id v2) ∧
    ((b.createAccount id v).2.createAccount id v2).1 ≠ (b.createAccount id v).1 := by
  refine ⟨?_, Bank.deref_createAccount_new b id v, rfl, ?_, ?_, ?_, ?_, ?_, ?_, ?_, ?_, ?_⟩
  · simp [Bank.deref, Bank.createAccount]
  · simp [Bank.getBalance, Bank.createAccount, Account.getBalance]
  · exact Bank.deref_createAccount_old b id v h
  · exact Bank.getAccount_createAccount_same b id v
  · exact Bank.getAccount_createAccount_ne b id j v
  · intro hne
    refine ⟨?_, Bank.getAccount_createAccount_same _ id2 v2, ?_,
      Bank.deref_createAccount_new _ id2 v2⟩
    · rw [Bank.getAccount_createAccount_ne _ id2 id v2 hne]
      exact Bank.getAccount_createAccount_same b id v
    · rw [Bank.deref_createAccount_old _ id2 v2 _ (by simp [Bank.createAccount])]
      exact Bank.deref_createAccount_new b id v
  · simp only [Bank.entries, Bank.createAccount_accounts, Bank.createAccount_fst]
    exact Bank.entries_assign _ _ _
  · exact Bank.getAccount_createAccount_same _ id v2
  · exact Bank.deref_createAccount_new _ id v2
  · simp [Bank.createAccount]

/-! ## Properties of the instrumented operations and of the tasks -/

@[simp] theorem Sys.emit_bank (s : Sys) (e : Event) : (s.emit e).bank = s.bank := rfl

@[simp] theorem Sys.emit_trace (s : Sys) (e : Event) : (s.emit e).trace = s.trace ++ [e] := rfl

@[simp] theorem Sys.printLocked_bank (s : Sys) (m : Msg) : (s.printLocked m).bank = s.bank := rfl

@[simp] theorem Sys.printLocked_trace (s : Sys) (m : Msg) :
    (s.printLocked m).trace
      = s.trace ++ [.acquire .print_mtx, .print m, .release .print_mtx] := by
  simp [Sys.printLocked]

@[simp] theorem Sys.createAccount_handle (s : Sys) (id : Int) (v : Double) :
    (s.createAccount id v).1 = s.bank.heap.length := rfl

@[simp] theorem Sys.createAccount_bank (s : Sys) (id : Int) (v : Double) :
    (s.createAccount id v).2.bank = (s.bank.createAccount id v).2 := rfl

@[simp] theorem Sys.createAccount_trace (s : Sys) (id : Int) (v : Double) :
    (s.createAccount id v).2.trace
      = s.trace ++ [.acquire .bank_mtx, .release .bank_mtx] := by
  simp [Sys.createAccount]

@[simp] theorem Sys.getAccount_fst (s : Sys) (id : Int) :
    (s.getAccount id).1 = s.bank.getAccount id := rfl

@[simp] theorem Sys.getAccount_bank (s : Sys) (id : Int) : (s.getAccount id).2.bank = s.bank := rfl

@[simp] theorem Sys.getAccount_trace (s : Sys) (id : Int) :
    (s.getAccount id).2.trace = s.trace ++ [.acquire .bank_mtx, .release .bank_mtx] := by
  simp [Sys.getAccount]

@[simp] theorem Sys.getBalance_fst (s : Sys) (h : Nat) :
    (s.getBalance h).1 = s.bank.getBalance h := rfl

@[simp] theorem Sys.getBalance_bank (s : Sys) (h : Nat) : (s.getBalance h).2.bank = s.bank := rfl

@[simp] theorem Sys.getBalance_trace (s : Sys) (h : Nat) :
    (s.getBalance h).2.trace
      = s.trace ++ [.acquire (.acc_mtx h), .release (.acc_mtx h)] := by
  simp [Sys.getBalance]

@[simp] theorem Sys.deposit_bank (s : Sys) (h : Nat) (a : Double) :
    (s.deposit h a).bank = s.bank.deposit h a := rfl

@[simp] theorem Sys.deposit_trace (s : Sys) (h : Nat) (a : Double) :
    (s.deposit h a).trace = s.trace ++ [.acquire (.acc_mtx h), .release (.acc_mtx h)] := by
  simp [Sys.deposit]

@[simp] theorem Sys.withdraw_flag (s : Sys) (h : Nat) (a : Double) :
    (s.withdraw h a).1 = (s.bank.withdraw h a).1 := rfl

@[simp] theorem Sys.withdraw_bank (s : Sys) (h : Nat) (a : Double) :
    (s.withdraw h a).2.bank = (s.bank.withdraw h a).2 := rfl

@[simp] theorem Sys.withdraw_trace (s : Sys) (h : Nat) (a : Double) :
    (s.withdraw h a).2.trace
      = s.trace ++ [.acquire (.acc_mtx h), .release (.acc_mtx h)] := by
  simp [Sys.withdraw]

theorem Transaction.createAccountTask_bank (id : Int) (v : Double) (s : Sys) :
    (Transaction.createAccountTask id v s).bank = (s.bank.createAccount id v).2 := rfl

theorem Transaction.createAccountTask_trace (id : Int) (v : Double) (s : Sys) :
    (Transaction.createAccountTask id v s).trace
      = s.trace ++ [.acquire .print_mtx, .print .thread, .release .print_mtx,
          .acquire .bank_mtx, .release .bank_mtx,
          .acquire .print_mtx, .print (.accountCreated id v), .release .print_mtx] := by
  simp [Transaction.createAccountTask]

theorem Transaction.depositTask_found (id : Int) (a : Double) (s : Sys) (h : Nat)
    (hf : s.bank.getAccount id = some h) :
    (Transaction.depositTask id a s).bank = s.bank.deposit h a ∧
    (Transaction.depositTask id a s).trace
      = s.trace ++ [.acquire .print_mtx, .print .thread, .release .print_mtx,
          .acquire .bank_mtx, .release .bank_mtx,
          .acquire (.acc_mtx h), .release (.acc_mtx h),
          .acquire .print_mtx, .print (.deposited a id), .release .print_mtx] := by
  simp [Transaction.depositTask, hf]

theorem Transaction.depositTask_notFound (id : Int) (a : Double) (s : Sys)
    (hf : s.bank.getAccount id = none) :
    (Transaction.depositTask id a s).bank = s.bank ∧
    (Transaction.depositTask id a s).trace
      = s.trace ++ [.acquire .print_mtx, .print .thread, .release .print_mtx,
          .acquire .bank_mtx, .release .bank_mtx,
          .acquire .print_mtx, .print (.notFound id), .release .print_mtx] := by
  simp [Transaction.depositTask, hf]

theorem Transaction.withdrawTask_found (id : Int) (a : Double) (s : Sys) (h : Nat)
    (hf : s.bank.getAccount id = some h) :
    (Transaction.withdrawTask id a s).bank = (s.bank.withdraw h a).2 ∧
    (Transaction.withdrawTask id a s).trace
      = s.trace ++ [.acquire .print_mtx, .print .thread, .release .print_mtx,
          .acquire .bank_mtx, .release .bank_mtx,
          .acquire (.acc_mtx h), .release (.acc_mtx h),
          .acquire .print_mtx,
          .print (if (s.bank.withdraw h a).1 then .withdrew a id else .insufficient id),
          .release .print_mtx] := by
  cases hw : (s.bank.withdraw h a).1 <;> simp [Transaction.withdrawTask, hf, hw]

theorem Transaction.withdrawTask_notFound (id : Int) (a : Double) (s : Sys)
    (hf : s.bank.getAccount id = none) :
    (Transaction.withdrawTask id a s).bank = s.bank ∧
    (Transaction.withdrawTask id a s).trace
      = s.trace ++ [.acquire .print_mtx, .print .thread, .release .print_mtx,
          .acquire .bank_mtx, .release .bank_mtx,
          .acquire .print_mtx, .print (.notFound id), .release .print_mtx] := by
  simp [Transaction.withdrawTask, hf]

theorem Transaction.checkBalanceTask_found (id : Int) (s : Sys) (h : Nat)
    (hf : s.bank.getAccount id = some h) :
    (Transaction.checkBalanceTask id s).bank = s.bank ∧
    (Transaction.checkBalanceTask id s).trace
      = s.trace ++ [.acquire .print_mtx, .print .thread, .release .print_mtx,
          .acquire .bank_mtx, .release .bank_mtx,
          .acquire .print_mtx, .acquire (.acc_mtx h), .release (.acc_mtx h),
          .print (.balance id (s.bank.getBalance h)), .release .print_mtx] := by
  simp [Transaction.checkBalanceTask, hf]

theorem Transaction.checkBalanceTask_notFound (id : Int) (s : Sys)
    (hf : s.bank.getAccount id = none) :
    (Transaction.checkBalanceTask id s).bank = s.bank ∧
    (Transaction.checkBalanceTask id s).trace
      = s.trace ++ [.acquire .print_mtx, .print .thread, .release .print_mtx,
          .acquire .bank_mtx, .release .bank_mtx,
          .acquire .print_mtx, .print (.notFound id), .release .print_mtx] := by
  simp [Transaction.checkBalanceTask, hf]

theorem Sys.step_getAccount (s : Sys) (op : Op) (id : Int) (h : op.creates id = false) :
    (s.step op).bank.getAccount id = s.bank.getAccount id := by
  cases op with
  | createAccount c v =>
    have hne : id ≠ c := fun e => by simp [Op.creates, e] at h
    simpa [Sys.step] using Bank.getAccount_createAccount_ne s.bank c id v hne
  | getAccount j => rfl
  | getBalance a => rfl
  | deposit a amount => simpa [Sys.step] using Bank.getAccount_deposit s.bank a amount id
  | withdraw a amount => simpa [Sys.step] using Bank.getAccount_withdraw s.bank a amount id
  | task r =>
    cases r with
    | createAccount c v =>
      have hne : id ≠ c := fun e => by simp [Op.creates, e] at h
      simp only [Sys.step, Transaction.runTask, Transaction.createAccountTask_bank]
      exact Bank.getAccount_createAccount_ne s.bank c id v hne
    | deposit j amount =>
      simp only [Sys.step, Transaction.runTask]
      cases hf : s.bank.getAccount j with
      | none => rw [(Transaction.depositTask_notFound j amount s hf).1]
      | some a =>
        rw [(Transaction.depositTask_found j amount s a hf).1]
        exact Bank.getAccount_deposit s.bank a amount id
    | withdraw j amount =>
      simp only [Sys.step, Transaction.runTask]
      cases hf : s.bank.getAccount j with
      | none => rw [(Transaction.withdrawTask_notFound j amount s hf).1]
      | some a =>
        rw [(Transaction.withdrawTask_found j amount s a hf).1]
        exact Bank.getAccount_withdraw s.bank a amount id
    | checkBalance j =>
      simp only [Sys.step, Transaction.runTask]
      cases hf : s.bank.getAccount j with
      | none => rw [(Transaction.checkBalanceTask_notFound j s hf).1]
      | some a => rw [(Transaction.checkBalanceTask_found j s a hf).1]

theorem Sys.run_getAccount (s : Sys) (ops : List Op) (id : Int)
    (h : ∀ op ∈ ops, op.creates id = false) :
    (s.run ops).bank.getAccount id = s.bank.getAccount id := by
  induction ops generalizing s with
  | nil => rfl
  | cons op rest ih =>
    have h1 := Sys.step_getAccount s op id (h op (List.mem_cons_self op rest))
    have h2 := ih (s.step op) (fun o ho => h o (List.mem_cons_of_mem op ho))
    simp only [Sys.run, List.foldl_cons] at h2 ⊢
    rw [h2, h1]

/-- C5: in a ledger built from the empty one by any operations none of which
creates an account under `id`, `getAccount(id)` returns `NULL` and leaves the
bank (the map and every balance) as it was; the Deposit, Withdraw and
CheckBalance tasks on `id` print `Account <id> not found` and leave the bank as
it was. -/
theorem Sys.getAccount_unknown (ops : List Op) (id : Int) (amount : Double)
    (h : ∀ op ∈ ops, op.creates id = false) :
    ((Sys.init.run ops).getAccount id).1 = none ∧
    ((Sys.init.run ops).getAccount id).2.bank = (Sys.init.run ops).bank ∧
    (Transaction.depositTask id amount (Sys.init.run ops)).bank = (Sys.init.run ops).bank ∧
    (Transaction.withdrawTask id amount (Sys.init.run ops)).bank = (Sys.init.run ops).bank ∧
    (Transaction.checkBalanceTask id (Sys.init.run ops)).bank = (Sys.init.run ops).bank ∧
    (Transaction.depositTask id amount (Sys.init.run ops)).trace
      = (Sys.init.run ops).trace ++
        [.acquire .print_mtx, .print .thread, .release .print_mtx,
          .acquire .bank_mtx, .release .bank_mtx,
          .acquire .print_mtx, .print (.notFound id), .release .print_mtx] ∧
    (Transaction.withdrawTask id amount (Sys.init.run ops)).trace
      = (Sys.init.run ops).trace ++
        [.acquire .print_mtx, .print .thread, .release .print_mtx,
          .acquire .bank_mtx, .release .bank_mtx,
          .acquire .print_mtx, .print (.notFound id), .release .print_mtx] ∧
    (Transaction.checkBalanceTask id (Sys.init.run ops)).trace
      = (Sys.init.run ops).trace ++
        [.acquire .print_mtx, .print .thread, .release .print_mtx,
          .acquire .bank_mtx, .release .bank_mtx,
          .acquire .print_mtx, .print (.notFound id), .release .print_mtx] := by
  have hf : (Sys.init.run ops).bank.getAccount id = none := by
    rw [Sys.run_getAccount Sys.init ops id h]
    rfl
  exact ⟨hf, rfl,
    (Transaction.depositTask_notFound id amount _ hf).1,
    (Transaction.withdrawTask_notFound id amount _ hf).1,
    (Transaction.checkBalanceTask_notFound id _ hf).1,
    (Transaction.depositTask_notFound id amount _ hf).2,
    (Transaction.withdrawTask_notFound id amount _ hf).2,
    (Transaction.checkBalanceTask_notFound id _ hf).2⟩

/-- Witness of C5: `checkBalance(999)` on the empty ledger prints
`Account 999 not found`. -/
theorem Sys.getAccount_unknown_witness :
    (Sys.init.getAccount 999).1 = none ∧
    (Transaction.checkBalanceTask 999 Sys.init).bank = Sys.init.bank ∧
    (Transaction.checkBalanceTask 999 Sys.init).trace
      = [.acquire .print_mtx, .print .thread, .release .print_mtx,
          .acquire .bank_mtx, .release .bank_mtx,
          .acquire .print_mtx, .print (.notFound 999), .release .print_mtx] :=
  have h := Sys.getAccount_unknown [] 999 0 (fun _ hop => absurd hop (List.not_mem_nil _))
  ⟨h.1, h.2.2.2.2.1, h.2.2.2.2.2.2.2⟩

/-- Counterexample to C6: on the empty ledger `createAccount(1, 100)` makes
identifier `1` resolve to the handle `0`; after the further operation
`createAccount(1, 5)` the identifier resolves to the handle `1`, another
instance. -/
theorem Sys.getAccount_rebound_by_createAccount :
    (Sys.init.run [.createAccount 1 100]).bank.getAccount 1 = some 0 ∧
    ((Sys.init.run [.createAccount 1 100]).run [.createAccount 1 5]).bank.getAccount 1
      = some 1 ∧
    ((Sys.init.run [.createAccount 1 100]).run [.createAccount 1 5]).bank.getAccount 1
      ≠ (Sys.init.run [.createAccount 1 100]).bank.getAccount 1 := by
  decide

/-- C6 (amended): when `getAccount(id)` resolves to an account instance, it
still resolves to that same instance after any further sequence of ledger
operations, account operations and tasks in which no `createAccount` is called
with that same `id`. -/
theorem Sys.getAccount_stable (s : Sys) (id : Int) (account : Nat) (ops : List Op)
    (hres : s.bank.getAccount id = some account)
    (hno : ∀ op ∈ ops, op.creates id = false) :
    (s.run ops).bank.getAccount id = some account := by
  rw [Sys.run_getAccount s ops id hno, hres]

/-- Witness of C6 (amended): account `1` keeps its instance through a second
account, a deposit task, a direct withdrawal and a lookup. -/
theorem Sys.getAccount_stable_witness :
    ((Sys.init.run [.createAccount 1 100]).run
        [.createAccount 2 7, .task (.deposit 1 50), .withdraw 0 30, .getAccount 1]).bank.getAccount 1
      = some 0 :=
  Sys.getAccount_stable (Sys.init.run [.createAccount 1 100]) 1 0
    [.createAccount 2 7, .task (.deposit 1 50), .withdraw 0 30, .getAccount 1]
    (by decide) (by decide)

theorem Bank.deposit_created (b : Bank) (id : Int) (v a : Double) :
    (b.createAccount id v).2.deposit b.heap.length a = (b.createAccount id (v + a)).2 := by
  simp [Bank.deposit, Bank.createAccount, Account.deposit]

theorem Bank.withdraw_created (b : Bank) (id : Int) (v a : Double)
    (h : Double.ge v a = true) :
    (b.createAccount id v).2.withdraw b.heap.length a
      = (true, (b.createAccount id (v - a)).2) := by
  simp [Bank.withdraw, Bank.createAccount, Account.withdraw, h]

theorem Double.add_100_50 : (100 : Double) + 50 = 150 := Double.add_ofInt 100 50 (by decide)

theorem Double.sub_150_30 : (150 : Double) - 30 = 120 := Double.sub_ofInt 150 30 (by decide)

theorem Double.sub_100_30 : (100 : Double) - 30 = 70 := Double.sub_ofInt 100 30 (by decide)

theorem Double.add_70_50 : (70 : Double) + 50 = 120 := Double.add_ofInt 70 50 (by decide)

theorem Double.ge_150_30 : Double.ge 150 30 = true :=
  Double.ge_ofInt 150 30 (by decide) (by decide)

theorem Double.ge_100_30 : Double.ge 100 30 = true :=
  Double.ge_ofInt 100 30 (by decide) (by decide)

theorem Bank.getBalance_created (b : Bank) (id : Int) (v : Double) :
    (b.createAccount id v).2.getBalance b.heap.length = v := by
  simp [Bank.getBalance, Bank.createAccount, Account.getBalance]

/-- C8: on any ledger, once account `1` has been created with balance `100`,
the tasks Deposit(1, 50) and Withdraw(1, 30) run one after the other in either
order: in both orders the withdrawal prints `Withdrew 30 from account 1` (never
`Insufficient balance`), identifier `1` resolves to the account just created,
its balance is exactly `120`, and the bank is the one in which that account
holds `120` and nothing else has changed. -/
theorem Transaction.deposit_withdraw_either_order (s : Sys) :
    (Transaction.withdrawTask 1 30
        (Transaction.depositTask 1 50 (Transaction.createAccountTask 1 100 s))).trace
      = (Transaction.createAccountTask 1 100 s).trace ++
        [.acquire .print_mtx, .print .thread, .release .print_mtx,
          .acquire .bank_mtx, .release .bank_mtx,
          .acquire (.acc_mtx s.bank.heap.length), .release (.acc_mtx s.bank.heap.length),
          .acquire .print_mtx, .print (.deposited 50 1), .release .print_mtx,
          .acquire .print_mtx, .print .thread, .release .print_mtx,
          .acquire .bank_mtx, .release .bank_mtx,
          .acquire (.acc_mtx s.bank.heap.length), .release (.acc_mtx s.bank.heap.length),
          .acquire .print_mtx, .print (.withdrew 30 1), .release .print_mtx] ∧
    (Transaction.depositTask 1 50
        (Transaction.withdrawTask 1 30 (Transaction.createAccountTask 1 100 s))).trace
      = (Transaction.createAccountTask 1 100 s).trace ++
        [.acquire .print_mtx, .print .thread, .release .print_mtx,
          .acquire .bank_mtx, .release .bank_mtx,
          .acquire (.acc_mtx s.bank.heap.length), .release (.acc_mtx s.bank.heap.length),
          .acquire .print_mtx, .print (.withdrew 30 1), .release .print_mtx,
          .acquire .print_mtx, .print .thread, .release .print_mtx,
          .acquire .bank_mtx, .release .bank_mtx,
          .acquire (.acc_mtx s.bank.heap.length), .release (.acc_mtx s.bank.heap.length),
          .acquire .print_mtx, .print (.deposited 50 1), .release .print_mtx] ∧
    (Transaction.withdrawTask 1 30
        (Transaction.depositTask 1 50 (Transaction.createAccountTask 1 100 s))).bank
      = (s.bank.createAccount 1 120).2 ∧
    (Transaction.depositTask 1 50
        (Transaction.withdrawTask 1 30 (Transaction.createAccountTask 1 100 s))).bank
      = (s.bank.createAccount 1 120).2 ∧
    (Transaction.withdrawTask 1 30
        (Transaction.depositTask 1 50 (Transaction.createAccountTask 1 100 s))).bank.getAccount 1
      = some s.bank.heap.length ∧
    (Transaction.withdrawTask 1 30
        (Transaction.depositTask 1 50 (Transaction.createAccountTask 1 100 s))).bank.getBalance
        s.bank.heap.length = 120 ∧
    (Transaction.depositTask 1 50
        (Transaction.withdrawTask 1 30 (Transaction.createAccountTask 1 100 s))).bank.getAccount 1
      = some s.bank.heap.length ∧
    (Transaction.depositTask 1 50
        (Transaction.withdrawTask 1 30 (Transaction.createAccountTask 1 100 s))).bank.getBalance
        s.bank.heap.length = 120 := by
  have hc : (Transaction.createAccountTask 1 100 s).bank.getAccount 1
      = some s.bank.heap.length := by
    rw [Transaction.createAccountTask_bank]
    exact Bank.getAccount_createAccount_same s.bank 1 100
  -- deposit first
  have hd := Transaction.depositTask_found 1 50 _ _ hc
  rw [Transaction.createAccountTask_bank, Bank.deposit_created] at hd
  have hd1 : (Transaction.depositTask 1 50 (Transaction.createAccountTask 1 100 s)).bank.getAccount 1
      = some s.bank.heap.length := by
    rw [hd.1]
    exact Bank.getAccount_createAccount_same s.bank 1 _
  have hdw := Transaction.withdrawTask_found 1 30 _ _ hd1
  rw [hd.1, Double.add_100_50, Bank.withdraw_created _ _ _ _ Double.ge_150_30,
    Double.sub_150_30, hd.2] at hdw
  -- withdrawal first
  have hw := Transaction.withdrawTask_found 1 30 _ _ hc
  rw [Transaction.createAccountTask_bank, Bank.withdraw_created _ _ _ _ Double.ge_100_30,
    Double.sub_100_30] at hw
  have hw1 : (Transaction.withdrawTask 1 30 (Transaction.createAccountTask 1 100 s)).bank.getAccount 1
      = some s.bank.heap.length := by
    rw [hw.1]
    exact Bank.getAccount_createAccount_same s.bank 1 _
  have hwd := Transaction.depositTask_found 1 50 _ _ hw1
  rw [hw.1, Bank.deposit_created, Double.add_70_50, hw.2] at hwd
  have e1 : (Transaction.withdrawTask 1 30
      (Transaction.depositTask 1 50 (Transaction.createAccountTask 1 100 s))).bank
      = (s.bank.createAccount 1 120).2 := by
    rw [hdw.1]
  have e2 : (Transaction.depositTask 1 50
      (Transaction.withdrawTask 1 30 (Transaction.createAccountTask 1 100 s))).bank
      = (s.bank.createAccount 1 120).2 := by
    rw [hwd.1]
  refine ⟨?_, ?_, e1, e2, ?_, ?_, ?_, ?_⟩
  · rw [hdw.2]
    simp
  · rw [hwd.2]
    simp
  · rw [e1]
    exact Bank.getAccount_createAccount_same s.bank 1 120
  · rw [e1]
    exact Bank.getBalance_created s.bank 1 120
  · rw [e2]
    exact Bank.getAccount_createAccount_same s.bank 1 120
  · rw [e2]
    exact Bank.getBalance_created s.bank 1 120

/-! ## Lock nesting of the operations -/

theorem Op.events_task_checkBalance_found (b : Bank) (id : Int) (h : Nat)
    (hf : b.getAccount id = some h) :
    (Op.task (.checkBalance id)).events b
      = [.acquire .print_mtx, .print .thread, .release .print_mtx,
          .acquire .bank_mtx, .release .bank_mtx,
          .acquire .print_mtx, .acquire (.acc_mtx h), .release (.acc_mtx h),
          .print (.balance id (b.getBalance h)), .release .print_mtx] := by
  have := (Transaction.checkBalanceTask_found id { bank := b, trace := [] } h hf).2
  simpa [Op.events, Sys.step, Transaction.runTask] using this

theorem Op.events_task_checkBalance_notFound (b : Bank) (id : Int)
    (hf : b.getAccount id = none) :
    (Op.task (.checkBalance id)).events b
      = [.acquire .print_mtx, .print .thread, .release .print_mtx,
          .acquire .bank_mtx, .release .bank_mtx,
          .acquire .print_mtx, .print (.notFound id), .release .print_mtx] := by
  have := (Transaction.checkBalanceTask_notFound id { bank := b, trace := [] } hf).2
  simpa [Op.events, Sys.step, Transaction.runTask] using this

theorem Op.nestings_of_not_checkBalance (op : Op) (b : Bank) (h : op.isCheckBalance = false) :
    nestings [] (op.events b) = [] ∧ maxHeld [] (op.events b) ≤ 1 ∧
    heldAfter [] (op.events b) = [] := by
  cases op with
  | createAccount c v => simp [Op.events, Sys.step, nestings, maxHeld, heldAfter]
  | getAccount j => simp [Op.events, Sys.step, nestings, maxHeld, heldAfter]
  | getBalance a => simp [Op.events, Sys.step, nestings, maxHeld, heldAfter]
  | deposit a amount => simp [Op.events, Sys.step, nestings, maxHeld, heldAfter]
  | withdraw a amount => simp [Op.events, Sys.step, nestings, maxHeld, heldAfter]
  | task r =>
    cases r with
    | createAccount c v =>
      simp [Op.events, Sys.step, Transaction.runTask, Transaction.createAccountTask_trace,
        nestings, maxHeld, heldAfter]
    | deposit j amount =>
      cases hf : b.getAccount j with
      | none =>
        have := (Transaction.depositTask_notFound j amount { bank := b, trace := [] } hf).2
        simp [Op.events, Sys.step, Transaction.runTask, this, nestings, maxHeld, heldAfter]
      | some a =>
        have := (Transaction.depositTask_found j amount { bank := b, trace := [] } a hf).2
        simp [Op.events, Sys.step, Transaction.runTask, this, nestings, maxHeld, heldAfter]
    | withdraw j amount =>
      cases hf : b.getAccount j with
      | none =>
        have := (Transaction.withdrawTask_notFound j amount { bank := b, trace := [] } hf).2
        simp [Op.events, Sys.step, Transaction.runTask, this, nestings, maxHeld, heldAfter]
      | some a =>
        have := (Transaction.withdrawTask_found j amount { bank := b, trace := [] } a hf).2
        simp [Op.events, Sys.step, Transaction.runTask, this, nestings, maxHeld, heldAfter]
    | checkBalance j => simp [Op.isCheckBalance] at h

/-- Counterexample to C9: the `checkBalance` task on an existing account (the
account `1` of a ledger holding that one account) acquires the lock of the
account while it holds the output lock, so two locks are held at once. -/
theorem Op.checkBalance_nests_locks :
    nestings [] ((Op.task (.checkBalance 1)).events (Bank.empty.createAccount 1 100).2)
      = [(.print_mtx, .acc_mtx 0)] ∧
    maxHeld [] ((Op.task (.checkBalance 1)).events (Bank.empty.createAccount 1 100).2) = 2 := by
  decide

/-- C9 (amended): in the lock events of every operation other than the
`checkBalance` task no lock is acquired while another is held, so at most one
lock is held at a time.  The `checkBalance` task on an identifier that resolves
to the account `h` has exactly one nesting, the lock of `h` acquired under the
output lock, and none on an unknown identifier.  Hence in every operation no
lock is acquired while the ledger lock or an account lock is held, at most two
locks are held at a time, and every lock is released at the end. -/
theorem Op.lock_nesting (op : Op) (b : Bank) :
    (nestings [] (op.events b) =
      match op with
      | .task (.checkBalance id) =>
        (match b.getAccount id with
          | some h => [(Lock.print_mtx, Lock.acc_mtx h)]
          | none => [])
      | _ => []) ∧
    (maxHeld [] (op.events b) ≤ if op.isCheckBalance then 2 else 1) ∧
    heldAfter [] (op.events b) = [] := by
  by_cases hcb : op.isCheckBalance = false
  · have h := Op.nestings_of_not_checkBalance op b hcb
    refine ⟨?_, by simpa [hcb] using h.2.1, h.2.2⟩
    rw [h.1]
    cases op with
    | task r => cases r <;> first | rfl | simp [Op.isCheckBalance] at hcb
    | _ => rfl
  · cases op with
    | task r =>
      cases r with
      | checkBalance j =>
        cases hf : b.getAccount j with
        | none =>
          simp [Op.events_task_checkBalance_notFound b j hf, nestings, maxHeld, heldAfter,
            Op.isCheckBalance, hf]
        | some a =>
          simp [Op.events_task_checkBalance_found b j a hf, nestings, maxHeld, heldAfter,
            Op.isCheckBalance, hf]
      | _ => simp [Op.isCheckBalance] at hcb
    | _ => simp [Op.isCheckBalance] at hcb

/-! ## The thread collection and the destructor -/

theorem printed_append (xs ys : List Event) : printed (xs ++ ys) = printed xs ++ printed ys := by
  induction xs with
  | nil => rfl
  | cons e rest ih => cases e <;> simp [printed, ih]

theorem Transaction.banners_runTask (r : Request) (s : Sys) :
    Transaction.banners (Transaction.runTask r s).trace = Transaction.banners s.trace + 1 := by
  cases r with
  | createAccount c v =>
    simp [Transaction.runTask, Transaction.createAccountTask_trace,
      Transaction.banners, printed_append, printed, List.count_cons]
  | deposit j amount =>
    cases hf : s.bank.getAccount j with
    | none =>
      simp [Transaction.runTask, (Transaction.depositTask_notFound j amount s hf).2,
        Transaction.banners, printed_append, printed, List.count_cons]
    | some a =>
      simp [Transaction.runTask, (Transaction.depositTask_found j amount s a hf).2,
        Transaction.banners, printed_append, printed, List.count_cons]
  | withdraw j amount =>
    cases hf : s.bank.getAccount j with
    | none =>
      simp [Transaction.runTask, (Transaction.withdrawTask_notFound j amount s hf).2,
        Transaction.banners, printed_append, printed, List.count_cons]
    | some a =>
      cases hw : (s.bank.withdraw a amount).1 <;>
      simp [Transaction.runTask, (Transaction.withdrawTask_found j amount s a hf).2,
        Transaction.banners, printed_append, printed, List.count_cons, hw]
  | checkBalance j =>
    cases hf : s.bank.getAccount j with
    | none =>
      simp [Transaction.runTask, (Transaction.checkBalanceTask_notFound j s hf).2,
        Transaction.banners, printed_append, printed, List.count_cons]
    | some a =>
      simp [Transaction.runTask, (Transaction.checkBalanceTask_found j s a hf).2,
        Transaction.banners, printed_append, printed, List.count_cons]

theorem Transaction.submit_eq_spawn (d : Transaction) (r : Request) :
    d.submit r = d.spawn r := by
  cases r <;> rfl

theorem Transaction.finishedCount_append (xs ys : List Thread) :
    Transaction.finishedCount (xs ++ ys)
      = Transaction.finishedCount xs + Transaction.finishedCount ys := by
  induction xs with
  | nil => simp [Transaction.finishedCount]
  | cons t rest ih => simp [Transaction.finishedCount, ih, Nat.add_assoc]

theorem Transaction.finishedCount_set_finished (ts : List Thread) (i : Nat) (t : Thread)
    (h : ts[i]? = some t) (hf : t.finished = false) :
    Transaction.finishedCount (ts.set i { t with finished := true })
      = Transaction.finishedCount ts + 1 := by
  induction ts generalizing i with
  | nil => simp at h
  | cons u rest ih =>
    cases i with
    | zero =>
      simp only [List.getElem?_cons_zero, Option.some.injEq] at h
      subst h
      simp [Transaction.finishedCount, hf, Nat.add_comm]
    | succ k =>
      simp only [List.getElem?_cons_succ] at h
      simp only [List.set_cons_succ, Transaction.finishedCount, ih k h]
      omega

theorem Transaction.finishedCount_set_joined (ts : List Thread) (i : Nat) (t u : Thread)
    (h : ts[i]? = some t) (hu : u.finished = t.finished) :
    Transaction.finishedCount (ts.set i u) = Transaction.finishedCount ts := by
  induction ts generalizing i with
  | nil => simp at h
  | cons v rest ih =>
    cases i with
    | zero =>
      simp only [List.getElem?_cons_zero, Option.some.injEq] at h
      subst h
      simp [Transaction.finishedCount, hu]
    | succ k =>
      simp only [List.getElem?_cons_succ] at h
      simp only [List.set_cons_succ, Transaction.finishedCount, ih k h]

theorem Transaction.finishedCount_eq_length (ts : List Thread)
    (h : ∀ t ∈ ts, t.finished = true) : Transaction.finishedCount ts = ts.length := by
  induction ts with
  | nil => rfl
  | cons u rest ih =>
    have hu := h u (List.mem_cons_self u rest)
    have hr := ih (fun t ht => h t (List.mem_cons_of_mem u ht))
    simp [Transaction.finishedCount, hu, hr, Nat.add_comm]

theorem Transaction.map_request_set (ts : List Thread) (i : Nat) (t u : Thread)
    (h : ts[i]? = some t) (hu : u.request = t.request) :
    (ts.set i u).map Thread.request = ts.map Thread.request := by
  induction ts generalizing i with
  | nil => simp at h
  | cons v rest ih =>
    cases i with
    | zero =>
      simp only [List.getElem?_cons_zero, Option.some.injEq] at h
      subst h
      simp [hu]
    | succ k =>
      simp only [List.getElem?_cons_succ] at h
      simp [ih k h]

theorem Transaction.getElem?_append_singleton (ts : List Thread) (x t : Thread) (k : Nat)
    (h : (ts ++ [x])[k]? = some t) : ts[k]? = some t ∨ t = x := by
  rw [List.getElem?_append] at h
  split at h
  · exact Or.inl h
  · cases hk : k - ts.length with
    | zero =>
      rw [hk] at h
      simp only [List.getElem?_cons_zero, Option.some.injEq] at h
      exact Or.inr h.symm
    | succ n =>
      rw [hk] at h
      simp at h

theorem Transaction.getElem?_set_cases (ts : List Thread) (i k : Nat) (x t : Thread)
    (h : (ts.set i x)[k]? = some t) : (k = i ∧ t = x) ∨ (k ≠ i ∧ ts[k]? = some t) := by
  rw [List.getElem?_set] at h
  by_cases hik : i = k
  · rw [if_pos hik] at h
    split at h
    · exact Or.inl ⟨hik.symm, (Option.some.inj h).symm⟩
    · cases h
  · rw [if_neg hik] at h
    exact Or.inr ⟨fun e => hik e.symm, h⟩

theorem Transaction.step_inv (d d1 : Transaction) (a : Transaction.Action) (hinv : d.Inv)
    (h : d.step a = some d1) :
    d1.Inv ∧
    d1.threads.map Thread.request
      = d.threads.map Thread.request ++ Transaction.submitted [a] ∧
    Transaction.banners d1.sys.trace + Transaction.finishedCount d.threads
      = Transaction.banners d.sys.trace + Transaction.finishedCount d1.threads := by
  cases a with
  | submit r =>
    cases hj : d.joining with
    | some i => simp [Transaction.step, hj] at h
    | none =>
      simp only [Transaction.step, hj, if_true, Option.some.injEq] at h
      subst h
      rw [Transaction.submit_eq_spawn]
      refine ⟨?_, ?_, ?_⟩
      · simp only [Transaction.Inv, Transaction.spawn, hj] at hinv ⊢
        intro k t hk
        rcases Transaction.getElem?_append_singleton _ _ _ _ hk with h1 | h1
        · exact hinv k t h1
        · rw [h1]
      · simp [Transaction.spawn, Transaction.submitted]
      · simp [Transaction.spawn, Transaction.finishedCount_append, Transaction.finishedCount]
  | run i =>
    cases ht : d.threads[i]? with
    | none => simp [Transaction.step, ht] at h
    | some t =>
      cases hfin : t.finished with
      | true => simp [Transaction.step, ht, hfin] at h
      | false =>
        simp only [Transaction.step, ht, hfin, Bool.false_eq_true, if_false,
          Option.some.injEq] at h
        subst h
        refine ⟨?_, ?_, ?_⟩
        · cases hj : d.joining with
          | none =>
            simp only [Transaction.Inv, hj] at hinv ⊢
            intro k u hk
            rcases Transaction.getElem?_set_cases _ _ _ _ _ hk with ⟨_, h1⟩ | ⟨_, h1⟩
            · rw [h1]
              exact hinv i t ht
            · exact hinv k u h1
          | some j =>
            simp only [Transaction.Inv, hj, List.length_set] at hinv ⊢
            refine ⟨hinv.1, ?_⟩
            intro k u hk
            rcases Transaction.getElem?_set_cases _ _ _ _ _ hk with ⟨h0, h1⟩ | ⟨_, h1⟩
            · subst h0
              rw [h1]
              have := hinv.2 k t ht
              exact ⟨fun hlt => ⟨rfl, (this.1 hlt).2⟩, this.2⟩
            · exact hinv.2 k u h1
        · simp [Transaction.submitted, Transaction.map_request_set d.threads i t _ ht]
        · simp only [Transaction.banners_runTask,
            Transaction.finishedCount_set_finished d.threads i t ht hfin]
          omega
  | destroy =>
    cases hj : d.joining with
    | some i => simp [Transaction.step, hj] at h
    | none =>
      simp only [Transaction.step, hj, if_true, Option.some.injEq] at h
      subst h
      refine ⟨?_, by simp [Transaction.submitted], rfl⟩
      simp only [Transaction.Inv, hj] at hinv ⊢
      exact ⟨Nat.zero_le _, fun k t hk => ⟨fun hlt => absurd hlt (Nat.not_lt_zero k),
        fun _ => hinv k t hk⟩⟩
  | joinNext =>
    cases hj : d.joining with
    | none => simp [Transaction.step, hj] at h
    | some i =>
      cases ht : d.threads[i]? with
      | none => simp [Transaction.step, hj, ht] at h
      | some t =>
        have hlen : i < d.threads.length := by
          rcases List.getElem?_eq_some.mp ht with ⟨hl, _⟩
          exact hl
        simp only [Transaction.Inv, hj] at hinv
        have hjoin : t.joinable = true := (hinv.2 i t ht).2 (Nat.le_refl i)
        cases hfin : t.finished with
        | false => simp [Transaction.step, hj, ht, hjoin, hfin] at h
        | true =>
          simp only [Transaction.step, hj, ht, hjoin, hfin, if_true, Option.some.injEq] at h
          subst h
          refine ⟨?_, ?_, ?_⟩
          · simp only [Transaction.Inv, List.length_set]
            refine ⟨hlen, ?_⟩
            intro k u hk
            rcases Transaction.getElem?_set_cases _ _ _ _ _ hk with ⟨h0, h1⟩ | ⟨h0, h1⟩
            · subst h0
              rw [h1]
              exact ⟨fun _ => ⟨rfl, rfl⟩, fun hle => absurd hle (by omega)⟩
            · have := hinv.2 k u h1
              exact ⟨fun hlt => this.1 (by omega), fun hle => this.2 (by omega)⟩
          · simp [Transaction.submitted, Transaction.map_request_set d.threads i t _ ht]
          · rw [Transaction.finishedCount_set_joined d.threads i t _ ht hfin.symm]

theorem Transaction.submitted_cons (a : Transaction.Action) (rest : List Transaction.Action) :
    Transaction.submitted (a :: rest)
      = Transaction.submitted [a] ++ Transaction.submitted rest := by
  cases a <;> simp [Transaction.submitted]

theorem Transaction.exec_inv (acts : List Transaction.Action) (d d1 : Transaction)
    (hinv : d.Inv) (h : d.exec acts = some d1) :
    d1.Inv ∧
    d1.threads.map Thread.request
      = d.threads.map Thread.request ++ Transaction.submitted acts ∧
    Transaction.banners d1.sys.trace + Transaction.finishedCount d.threads
      = Transaction.banners d.sys.trace + Transaction.finishedCount d1.threads := by
  induction acts generalizing d with
  | nil =>
    simp only [Transaction.exec, Option.some.injEq] at h
    subst h
    exact ⟨hinv, by simp [Transaction.submitted], rfl⟩
  | cons a rest ih =>
    cases hs : d.step a with
    | none => simp [Transaction.exec, hs] at h
    | some d2 =>
      simp only [Transaction.exec, hs] at h
      have h1 := Transaction.step_inv d d2 a hinv hs
      have h2 := ih d2 h1.1 h
      refine ⟨h2.1, ?_, ?_⟩
      · rw [h2.2.1, h1.2.1, Transaction.submitted_cons a rest, List.append_assoc]
      · have e1 := h1.2.2
        have e2 := h2.2.2
        omega

theorem Transaction.exec_drain (rest : List Thread) (d : Transaction) (i : Nat)
    (hj : d.joining = some i) (hd : d.threads.drop i = rest)
    (hjoin : ∀ t ∈ rest, t.joinable = true) :
    ∃ d1, d.exec (Transaction.drain i rest) = some d1 ∧
      d1.joining = some (i + rest.length) ∧ d1.threads.length = d.threads.length := by
  induction rest generalizing d i with
  | nil => exact ⟨d, rfl, by simpa using hj, rfl⟩
  | cons t rest ih =>
    have ht : d.threads[i]? = some t := by
      have := List.getElem?_drop d.threads i 0
      rw [hd] at this
      simpa using this.symm
    have hrest : d.threads.drop (i + 1) = rest := by
      have := List.drop_drop 1 i d.threads
      rw [hd] at this
      simpa using this.symm
    have htj : t.joinable = true := hjoin t (List.mem_cons_self t rest)
    have hjoin1 : ∀ u ∈ rest, u.joinable = true :=
      fun u hu => hjoin u (List.mem_cons_of_mem t hu)
    cases hfin : t.finished with
    | true =>
      have hstep : d.step .joinNext
          = some { d with threads := d.threads.set i { t with joinable := false },
                          joining := some (i + 1) } := by
        simp [Transaction.step, hj, ht, htj, hfin]
      obtain ⟨d1, h1, h2, h3⟩ := ih
        { d with threads := d.threads.set i { t with joinable := false },
                 joining := some (i + 1) } (i + 1) rfl
        (by simpa [List.drop_set_of_lt _ _ (Nat.lt_succ_self i)] using hrest) hjoin1
      refine ⟨d1, ?_, ?_, ?_⟩
      · simp only [Transaction.drain, hfin, if_true, List.nil_append, Transaction.exec, hstep]
        simpa only [hfin] using h1
      · rw [h2]
        simp only [List.length_cons]
        congr 1
        omega
      · simpa using h3
    | false =>
      have hstep1 : d.step (.run i)
          = some { d with sys := Transaction.runTask t.request d.sys,
                          threads := d.threads.set i { t with finished := true } } := by
        simp [Transaction.step, ht, hfin]
      have hlen : i < d.threads.length := by
        rcases List.getElem?_eq_some.mp ht with ⟨hl, _⟩
        exact hl
      have hstep2 :
          Transaction.step
            { d with sys := Transaction.runTask t.request d.sys,
                     threads := d.threads.set i { t with finished := true } } .joinNext
          = some { d with sys := Transaction.runTask t.request d.sys,
                          threads := (d.threads.set i { t with finished := true }).set i
                            { t with finished := true, joinable := false },
                          joining := some (i + 1) } := by
        simp [Transaction.step, hj, hlen, htj]
      obtain ⟨d1, h1, h2, h3⟩ := ih
        { d with sys := Transaction.runTask t.request d.sys,
                 threads := (d.threads.set i { t with finished := true }).set i
                   { t with finished := true, joinable := false },
                 joining := some (i + 1) } (i + 1) rfl
        (by simpa [List.drop_set_of_lt _ _ (Nat.lt_succ_self i)] using hrest) hjoin1
      refine ⟨d1, ?_, ?_, ?_⟩
      · simp only [Transaction.drain, hfin, Bool.false_eq_true, if_false, List.singleton_append,
          Transaction.exec, hstep1, hstep2]
        exact h1
      · rw [h2]
        simp only [List.length_cons]
        congr 1
        omega
      · simpa using h3

theorem Transaction.new_inv (sys : Sys) : (Transaction.new sys).Inv := by
  simp [Transaction.Inv, Transaction.new]

theorem Transaction.exec_shutdown (d : Transaction) (hinv : d.Inv) :
    ∃ d1, d.exec (Transaction.shutdown d) = some d1 ∧ d1.returned = true := by
  cases hj : d.joining with
  | none =>
    simp only [Transaction.Inv, hj] at hinv
    have hstep : d.step .destroy = some { d with joining := some 0 } := by
      simp [Transaction.step, hj]
    obtain ⟨d1, h1, h2, h3⟩ := Transaction.exec_drain d.threads
      { d with joining := some 0 } 0 rfl (by simp)
      (fun t ht => by
        obtain ⟨k, hk⟩ := List.getElem?_of_mem ht
        exact hinv k t hk)
    refine ⟨d1, ?_, ?_⟩
    · simp only [Transaction.shutdown, hj, Transaction.exec, hstep]
      exact h1
    · simp only [Transaction.returned, h2, h3]
      simp
  | some i =>
    simp only [Transaction.Inv, hj] at hinv
    obtain ⟨d1, h1, h2, h3⟩ := Transaction.exec_drain (d.threads.drop i) d i hj rfl
      (fun t ht => by
        obtain ⟨k, hk⟩ := List.getElem?_of_mem ht
        rw [List.getElem?_drop] at hk
        exact (hinv.2 (i + k) t hk).2 (Nat.le_add_right i k))
    refine ⟨d1, ?_, ?_⟩
    · simp only [Transaction.shutdown, hj]
      exact h1
    · simp only [Transaction.returned, h2, h3, List.length_drop]
      have := hinv.1
      simp
      omega

theorem Transaction.all_joined_of_returned (d : Transaction) (hinv : d.Inv)
    (hr : d.returned = true) :
    ∀ t ∈ d.threads, t.finished = true ∧ t.joinable = false := by
  intro t ht
  obtain ⟨k, hk⟩ := List.getElem?_of_mem ht
  have hj : d.joining = some d.threads.length := by
    simpa [Transaction.returned] using hr
  simp only [Transaction.Inv, hj] at hinv
  have hlt : k < d.threads.length := by
    rcases List.getElem?_eq_some.mp hk with ⟨hl, _⟩
    exact hl
  exact (hinv.2 k t hk).1 hlt

/-- C10: in every state `d` the dispatcher reaches from its construction by
entry point calls, scheduler steps and destructor steps: an entry point call
starts exactly one thread and records it at the end of `threads`, touching
nothing else; `threads` holds one thread per submitted request, in order; the
destructor can always run to its end (no join waits for ever); and whenever the
destructor has returned, every recorded thread has finished its body and has
been joined, and each submitted task has run exactly once (one `::thread` line
per submitted request). -/
theorem Transaction.shutdown_barrier (sys : Sys) (acts : List Transaction.Action)
    (d : Transaction) (r : Request) (h : (Transaction.new sys).exec acts = some d) :
    (d.submit r).threads = d.threads ++ [Thread.mk r false true] ∧
    (d.submit r).sys = d.sys ∧
    d.threads.map Thread.request = Transaction.submitted acts ∧
    (∃ d1, d.exec (Transaction.shutdown d) = some d1 ∧ d1.returned = true) ∧
    (d.returned = true →
      (∀ t ∈ d.threads, t.finished = true ∧ t.joinable = false) ∧
      d.threads.length = (Transaction.submitted acts).length ∧
      Transaction.banners d.sys.trace
        = Transaction.banners sys.trace + (Transaction.submitted acts).length) := by
  have hi := Transaction.exec_inv acts (Transaction.new sys) d (Transaction.new_inv sys) h
  have hreq : d.threads.map Thread.request = Transaction.submitted acts := by
    simpa [Transaction.new] using hi.2.1
  refine ⟨?_, ?_, hreq, Transaction.exec_shutdown d hi.1, ?_⟩
  · rw [Transaction.submit_eq_spawn]
    rfl
  · rw [Transaction.submit_eq_spawn]
    rfl
  · intro hr
    have hall := Transaction.all_joined_of_returned d hi.1 hr
    have hlen : d.threads.length = (Transaction.submitted acts).length := by
      rw [← hreq, List.length_map]
    refine ⟨hall, hlen, ?_⟩
    have hc := hi.2.2
    rw [Transaction.finishedCount_eq_length d.threads (fun t ht => (hall t ht).1)] at hc
    simp only [Transaction.new, Transaction.finishedCount] at hc
    omega

/-- Witness of C10: two requests are submitted, the first task runs at once,
the second one only after the destructor has started; the destructor returns
with both threads finished and joined. -/
theorem Transaction.shutdown_barrier_witness :
    (Transaction.mk
        [Thread.mk (.createAccount 1 100) true false, Thread.mk (.checkBalance 1) true false]
        (Transaction.checkBalanceTask 1 (Transaction.createAccountTask 1 100 Sys.init))
        (some 2)).returned = true ∧
    ∀ t ∈ [Thread.mk (.createAccount 1 100) true false, Thread.mk (.checkBalance 1) true false],
      t.finished = true ∧ t.joinable = false :=
  have h := Transaction.shutdown_barrier Sys.init
    [.submit (.createAccount 1 100), .submit (.checkBalance 1), .run 0, .destroy, .run 1,
      .joinNext, .joinNext]
    (Transaction.mk
      [Thread.mk (.createAccount 1 100) true false, Thread.mk (.checkBalance 1) true false]
      (Transaction.checkBalanceTask 1 (Transaction.createAccountTask 1 100 Sys.init))
      (some 2))
    (.checkBalance 1) rfl
  ⟨by decide, (h.2.2.2.2 (by decide)).1⟩

end Banking
